import Mathlib

/-!
Verification development for the ASS/SSA subtitle markup codec of this
FFmpeg tree (libavutil ass splitting, the stripstyles / textmod / showspeaker
subtitle filters and the WebVTT encoder).

The repository snapshot contains the public headers
(`libavutil/ass_split_internal.h`, `libavutil/ass_internal.h`) and all the
call sites (`libavfilter/sf_stripstyles.c`, `libavfilter/sf_textmod.c`,
`libavcodec/webvttenc.c`, ...), but not the implementation files
`libavutil/ass_split.c` / `libavutil/ass.c`.  Definitions for those missing
functions are therefore modelled from the specification (each such definition
says so in its doc comment).  Everything taken from C files present in the
tree is translated directly from that source.

Machine integers are modelled as `Int`/`Nat`; C strings as Lean `String` /
`List Char`; fallible C functions returning null pointers are modelled with
`Option`/`Except`.  Allocation failure is not modelled: every buffer append
succeeds (an `AVBPrint` is always "complete" in this model).
-/

namespace FF

/-! ## Decimal rendering and parsing of integer fields

Modelled from the spec: the dialogue-line grammar serializes the numeric
fields (readorder, layer, margins) in plain decimal and parsing "fails with
`ParseError::BadNumber` on non-numeric content". -/

def digitChar (n : Nat) : Char := Char.ofNat (48 + n)

/-- Decimal digits of `n`, most significant first; fuel-structural so the
kernel can evaluate it. -/
def natToDigitsAux : Nat → Nat → List Char
  | 0, _ => []
  | fuel+1, n =>
    if n < 10 then [digitChar n]
    else natToDigitsAux fuel (n / 10) ++ [digitChar (n % 10)]

def natToDigits (n : Nat) : List Char := natToDigitsAux (n+1) n

def intToChars : Int → List Char
  | .ofNat n => natToDigits n
  | .negSucc n => '-' :: natToDigits (n+1)

def digitVal (c : Char) : Nat := c.toNat - 48

def digitsToNatAux (acc : Nat) : List Char → Nat
  | [] => acc
  | c :: cs => digitsToNatAux (acc * 10 + digitVal c) cs

def isDigitChar (c : Char) : Bool := 48 ≤ c.toNat && c.toNat ≤ 57

/-- Parse a non-empty all-digit run as a natural number. -/
def parseNatDigits (cs : List Char) : Option Nat :=
  if cs ≠ [] ∧ cs.all isDigitChar then some (digitsToNatAux 0 cs) else none

/-- Parse a decimal integer field (optional leading minus). -/
def parseIntField (cs : List Char) : Option Int :=
  match cs with
  | [] => none
  | c :: rest =>
    if c = '-' then (parseNatDigits rest).map (fun n => -(n : Int))
    else (parseNatDigits (c :: rest)).map (fun n => (n : Int))

/-! ### Round-trip lemmas for the decimal codec -/

theorem digitsToNatAux_nil (acc : Nat) : digitsToNatAux acc [] = acc := rfl

theorem digitsToNatAux_cons (acc : Nat) (c : Char) (cs : List Char) :
    digitsToNatAux acc (c :: cs) = digitsToNatAux (acc * 10 + digitVal c) cs := rfl

theorem natToDigitsAux_step (fuel n : Nat) : natToDigitsAux (fuel+1) n =
    if n < 10 then [digitChar n]
    else natToDigitsAux fuel (n / 10) ++ [digitChar (n % 10)] := rfl

theorem digitsToNatAux_append (acc : Nat) (xs : List Char) (c : Char) :
    digitsToNatAux acc (xs ++ [c]) = (digitsToNatAux acc xs) * 10 + digitVal c := by
  induction xs generalizing acc with
  | nil => rfl
  | cons x xs ih =>
    rw [List.cons_append, digitsToNatAux_cons, digitsToNatAux_cons, ih]

theorem digitChar_isDigit (n : Nat) (h : n < 10) : isDigitChar (digitChar n) = true := by
  interval_cases n <;> decide

theorem digitVal_digitChar (n : Nat) (h : n < 10) : digitVal (digitChar n) = n := by
  interval_cases n <;> decide

theorem natToDigitsAux_spec : ∀ fuel n, n < fuel →
    natToDigitsAux fuel n ≠ [] ∧ (natToDigitsAux fuel n).all isDigitChar = true ∧
    digitsToNatAux 0 (natToDigitsAux fuel n) = n := by
  intro fuel
  induction fuel with
  | zero => intro n h; omega
  | succ fuel ih =>
    intro n h
    rw [natToDigitsAux_step]
    by_cases h10 : n < 10
    · rw [if_pos h10]
      refine ⟨by simp, ?_, ?_⟩
      · simp [digitChar_isDigit n h10]
      · rw [digitsToNatAux_cons, digitVal_digitChar n h10, digitsToNatAux_nil]
        omega
    · rw [if_neg h10]
      have hdiv : n / 10 < fuel := by
        have h1 : n / 10 < n := Nat.div_lt_self (by omega) (by omega)
        omega
      have ⟨h1, h2, h3⟩ := ih (n / 10) hdiv
      have hmod : n % 10 < 10 := Nat.mod_lt _ (by omega)
      refine ⟨by simp, ?_, ?_⟩
      · rw [List.all_append, h2]
        simp [digitChar_isDigit _ hmod]
      · rw [digitsToNatAux_append, h3, digitVal_digitChar _ hmod]
        omega

theorem natToDigits_ne_nil (n : Nat) : natToDigits n ≠ [] :=
  (natToDigitsAux_spec (n+1) n (Nat.lt_succ_self n)).1

theorem natToDigits_all_digits (n : Nat) : (natToDigits n).all isDigitChar = true :=
  (natToDigitsAux_spec (n+1) n (Nat.lt_succ_self n)).2.1

theorem parseNatDigits_natToDigits (n : Nat) : parseNatDigits (natToDigits n) = some n := by
  have h := natToDigitsAux_spec (n+1) n (Nat.lt_succ_self n)
  unfold parseNatDigits
  rw [if_pos ⟨h.1, h.2.1⟩]
  exact congrArg some h.2.2

theorem natToDigits_head_digit (n : Nat) :
    ∀ c rest, natToDigits n = c :: rest → isDigitChar c = true := by
  intro c rest h
  have h2 := natToDigits_all_digits n
  rw [h] at h2
  simp [List.all_cons] at h2
  exact h2.1

theorem parseIntField_intToChars (i : Int) : parseIntField (intToChars i) = some i := by
  cases i with
  | ofNat n =>
    simp only [intToChars]
    have hne := natToDigits_ne_nil n
    match hnd : natToDigits n with
    | [] => exact absurd hnd hne
    | c :: rest =>
      have hc : isDigitChar c = true := natToDigits_head_digit n c rest hnd
      have hcne : c ≠ '-' := by
        intro hceq; rw [hceq] at hc; simp [isDigitChar] at hc
      have hpn := parseNatDigits_natToDigits n
      rw [hnd] at hpn
      simp only [parseIntField, if_neg hcne, hpn, Option.map_some]
      rfl
  | negSucc n =>
    have hpn := parseNatDigits_natToDigits (n+1)
    simp only [intToChars, parseIntField, if_pos rfl, hpn, Option.map_some]
    simp [Int.negSucc_eq]

theorem comma_not_digit : isDigitChar ',' = false := by decide

theorem natToDigits_no_comma (n : Nat) : ',' ∉ natToDigits n := by
  intro hmem
  have h := natToDigits_all_digits n
  rw [List.all_eq_true] at h
  have := h ',' hmem
  simp [isDigitChar] at this

theorem intToChars_no_comma (i : Int) : ',' ∉ intToChars i := by
  cases i with
  | ofNat n => exact natToDigits_no_comma n
  | negSucc n =>
    simp only [intToChars]
    intro hmem
    rcases List.mem_cons.mp hmem with h | h
    · exact absurd h (by decide)
    · exact natToDigits_no_comma (n+1) h

/-! ## The Dialog record codec

`ASSDialog` translates the struct of `libavutil/ass_split_internal.h`
(lines 109-123).  The `start`/`end` centisecond fields of the C struct are
not part of the 9-field dialogue-line grammar (they are owned by the caller)
and are omitted here. -/

structure ASSDialog where
  readorder : Int
  layer : Int
  style : String
  name : String
  margin_l : Int
  margin_r : Int
  margin_v : Int
  effect : String
  text : String
  deriving Repr, DecidableEq

/-- Error taxonomy of spec section 7. -/
inductive ParseError where
  | FieldCount
  | BadNumber
  deriving Repr, DecidableEq

/-- Split a char list at its first comma: the field before it and the rest
after it.  `none` when the list holds no comma. -/
def splitFirstComma : List Char → Option (List Char × List Char)
  | [] => none
  | c :: rest =>
    if c = ',' then some ([], rest)
    else (splitFirstComma rest).map (fun p => (c :: p.1, p.2))

/-- Split off `k` comma-separated leading fields; the remainder (after the
`k`-th comma) is returned verbatim. -/
def splitNCommas : Nat → List Char → Option (List (List Char) × List Char)
  | 0, cs => some ([], cs)
  | k+1, cs =>
    (splitFirstComma cs).bind fun p =>
      (splitNCommas k p.2).map (fun q => (p.1 :: q.1, q.2))

/-- Numeric-field validation step of the dialogue-line parse: readorder,
layer and the three margins must be decimal integers (`BadNumber`
otherwise); style, name, effect and text are taken verbatim. -/
def mkDialog (f1 f2 f3 f4 f5 f6 f7 f8 text : List Char) : Except ParseError ASSDialog :=
  match parseIntField f1 with
  | none => .error .BadNumber
  | some ro =>
  match parseIntField f2 with
  | none => .error .BadNumber
  | some ly =>
  match parseIntField f5 with
  | none => .error .BadNumber
  | some ml =>
  match parseIntField f6 with
  | none => .error .BadNumber
  | some mr =>
  match parseIntField f7 with
  | none => .error .BadNumber
  | some mv => .ok ⟨ro, ly, ⟨f3⟩, ⟨f4⟩, ml, mr, mv, ⟨f8⟩, ⟨text⟩⟩

/-- Modelled from the spec: `avpriv_ass_split_dialog` of the missing
`libavutil/ass_split.c` (declared in `libavutil/ass_split_internal.h`
lines 155-163).  Per spec section 4.1, it "splits on the first 8 commas only;
the remainder (after the 8th comma) is the text field verbatim", fails with
`FieldCount` when fewer than 8 commas are present and with `BadNumber` when
a numeric field (readorder, layer, margins) is non-numeric. -/
def avpriv_ass_split_dialog (line : String) : Except ParseError ASSDialog :=
  match splitNCommas 8 line.data with
  | none => .error .FieldCount
  | some (fields, text) =>
    match fields with
    | [f1, f2, f3, f4, f5, f6, f7, f8] => mkDialog f1 f2 f3 f4 f5 f6 f7 f8 text
    | _ => .error .FieldCount

/-- Character-level payload of a serialized dialogue line: the nine fields
joined with commas (the text never escaped). -/
def dialogLineChars (readorder layer : Int) (style speaker : Option String)
    (margin_l margin_r margin_v : Int) (effect : Option String) (text : String) : List Char :=
  intToChars readorder ++ ',' :: intToChars layer
    ++ ',' :: (style.getD "Default").data
    ++ ',' :: (speaker.getD "").data
    ++ ',' :: intToChars margin_l
    ++ ',' :: intToChars margin_r
    ++ ',' :: intToChars margin_v
    ++ ',' :: (effect.getD "").data
    ++ ',' :: text.data

/-- Modelled from the spec: `avpriv_ass_get_dialog_ex` of the missing
`libavutil/ass.c` (declared in `libavutil/ass_internal.h` lines 115-120).
Per spec section 4.1 it "joins readorder, layer, style-or-Default if absent,
name-or-empty, margin_l, margin_r, margin_v, effect-or-empty, text with
commas; never escapes the text field".  The `Option` arguments model
nullable C string pointers. -/
def avpriv_ass_get_dialog_ex (readorder layer : Int) (style speaker : Option String)
    (margin_l margin_r margin_v : Int) (effect : Option String) (text : String) : String :=
  ⟨dialogLineChars readorder layer style speaker margin_l margin_r margin_v effect text⟩

/-- Re-serialize a parsed dialog with the serializer (all string fields
present, as they are after a successful parse). -/
def reserializeDialog (d : ASSDialog) : String :=
  avpriv_ass_get_dialog_ex d.readorder d.layer (some d.style) (some d.name)
    d.margin_l d.margin_r d.margin_v (some d.effect) d.text

/-- "Valid field values" for the round trip: the comma-delimited string
fields must themselves be comma-free (the text field is unconstrained). -/
def validDialog (d : ASSDialog) : Prop :=
  ',' ∉ d.style.data ∧ ',' ∉ d.name.data ∧ ',' ∉ d.effect.data

/-! ### Splitting lemmas -/

theorem splitFirstComma_sound : ∀ cs f r, splitFirstComma cs = some (f, r) →
    cs = f ++ ',' :: r ∧ ',' ∉ f := by
  intro cs
  induction cs with
  | nil => intro f r h; simp [splitFirstComma] at h
  | cons c rest ih =>
    intro f r h
    by_cases hc : c = ','
    · rw [splitFirstComma, if_pos hc] at h
      injection h with h
      injection h with h1 h2
      subst h1; subst h2; subst hc
      exact ⟨rfl, by simp⟩
    · rw [splitFirstComma, if_neg hc] at h
      match hsp : splitFirstComma rest with
      | none => rw [hsp] at h; exact absurd h (by simp)
      | some (f', r') =>
        rw [hsp] at h
        have h' : some ((c :: f', r') : List Char × List Char) = some (f, r) := h
        injection h' with h'
        injection h' with h1 h2
        have ⟨ih1, ih2⟩ := ih f' r' hsp
        subst h1; subst h2
        constructor
        · rw [ih1]; rfl
        · intro hmem
          rcases List.mem_cons.mp hmem with hh | hh
          · exact hc hh.symm
          · exact ih2 hh

theorem splitFirstComma_complete : ∀ f r, ',' ∉ f →
    splitFirstComma (f ++ ',' :: r) = some (f, r) := by
  intro f
  induction f with
  | nil => intro r _; simp [splitFirstComma]
  | cons c f ih =>
    intro r hnc
    have hc : c ≠ ',' := fun h => hnc (h ▸ List.mem_cons_self c f)
    have hf : ',' ∉ f := fun h => hnc (List.mem_cons_of_mem c h)
    rw [List.cons_append, splitFirstComma, if_neg hc, ih r hf]
    rfl

theorem splitFirstComma_none_of_no_comma : ∀ cs, ',' ∉ cs → splitFirstComma cs = none := by
  intro cs
  induction cs with
  | nil => intro _; rfl
  | cons c rest ih =>
    intro h
    have hc : c ≠ ',' := fun hh => h (hh ▸ List.mem_cons_self c rest)
    rw [splitFirstComma, if_neg hc, ih (fun hh => h (List.mem_cons_of_mem c hh))]
    rfl

theorem splitNCommas_count : ∀ k cs p, splitNCommas k cs = some p →
    k ≤ cs.count ',' := by
  intro k
  induction k with
  | zero => intro cs p _; exact Nat.zero_le _
  | succ k ih =>
    intro cs p h
    rw [splitNCommas] at h
    match hsp : splitFirstComma cs with
    | none => rw [hsp] at h; exact absurd h (by simp)
    | some (f, r) =>
      rw [hsp] at h
      have h' : (splitNCommas k r).map (fun q => (f :: q.1, q.2)) = some p := h
      match hsn : splitNCommas k r with
      | none => rw [hsn] at h'; exact absurd h' (by simp)
      | some q =>
        have hk := ih r q hsn
        have ⟨hdec, _⟩ := splitFirstComma_sound cs f r hsp
        rw [hdec, List.count_append, List.count_cons]
        simp only [beq_self_eq_true, if_true]
        omega

theorem splitNCommas_complete : ∀ (fs : List (List Char)) (r : List Char),
    (∀ f ∈ fs, ',' ∉ f) →
    splitNCommas fs.length (fs.foldr (fun f acc => f ++ ',' :: acc) r) = some (fs, r) := by
  intro fs
  induction fs with
  | nil => intro r _; rfl
  | cons f fs ih =>
    intro r hnc
    have hf : ',' ∉ f := hnc f (List.mem_cons_self f fs)
    have hfs : ∀ g ∈ fs, ',' ∉ g := fun g hg => hnc g (List.mem_cons_of_mem f hg)
    show splitNCommas (fs.length + 1) (f ++ ',' :: fs.foldr (fun f acc => f ++ ',' :: acc) r)
      = some (f :: fs, r)
    rw [splitNCommas, splitFirstComma_complete f _ hf]
    show (splitNCommas fs.length (fs.foldr (fun f acc => f ++ ',' :: acc) r)).map
      (fun q => (f :: q.1, q.2)) = some (f :: fs, r)
    rw [ih r hfs]
    rfl

theorem splitNCommas_decomp : ∀ k cs fs r, splitNCommas k cs = some (fs, r) →
    fs.length = k ∧ cs = fs.foldr (fun f acc => f ++ ',' :: acc) r ∧ ∀ f ∈ fs, ',' ∉ f := by
  intro k
  induction k with
  | zero =>
    intro cs fs r h
    rw [splitNCommas] at h
    injection h with h
    injection h with h1 h2
    subst h1; subst h2
    exact ⟨rfl, rfl, by simp⟩
  | succ k ih =>
    intro cs fs r h
    rw [splitNCommas] at h
    match hsp : splitFirstComma cs with
    | none => rw [hsp] at h; exact absurd h (by simp)
    | some (f, rest) =>
      rw [hsp] at h
      have hb : (splitNCommas k rest).map (fun q => (f :: q.1, q.2)) = some (fs, r) := h
      match hsn : splitNCommas k rest with
      | none => rw [hsn] at hb; exact absurd hb (by simp)
      | some (fs', r') =>
        rw [hsn] at hb
        have h' : some ((f :: fs', r') : List (List Char) × List Char) = some (fs, r) := hb
        injection h' with h'
        injection h' with h1 h2
        have ⟨ihl, ihd, ihnc⟩ := ih rest fs' r' hsn
        have ⟨hdec, hncf⟩ := splitFirstComma_sound cs f rest hsp
        subst h1; subst h2
        refine ⟨by simp [ihl], ?_, ?_⟩
        · rw [hdec, ihd]; rfl
        · intro g hg
          rcases List.mem_cons.mp hg with hh | hh
          · exact hh ▸ hncf
          · exact ihnc g hh

/-! ### Parser inversion -/

theorem split_dialog_ok_inv (line : String) (d : ASSDialog)
    (h : avpriv_ass_split_dialog line = .ok d) :
    ∃ f1 f2 f5 f6 f7 : List Char,
      line.data = f1 ++ ',' :: f2 ++ ',' :: d.style.data ++ ',' :: d.name.data
        ++ ',' :: f5 ++ ',' :: f6 ++ ',' :: f7 ++ ',' :: d.effect.data ++ ',' :: d.text.data
      ∧ (',' ∉ f1) ∧ (',' ∉ f2) ∧ ',' ∉ d.style.data ∧ ',' ∉ d.name.data
      ∧ (',' ∉ f5) ∧ (',' ∉ f6) ∧ (',' ∉ f7) ∧ ',' ∉ d.effect.data
      ∧ parseIntField f1 = some d.readorder ∧ parseIntField f2 = some d.layer
      ∧ parseIntField f5 = some d.margin_l ∧ parseIntField f6 = some d.margin_r
      ∧ parseIntField f7 = some d.margin_v := by
  rw [avpriv_ass_split_dialog] at h
  match hs : splitNCommas 8 line.data with
  | none => rw [hs] at h; exact Except.noConfusion h
  | some (fields, text) =>
    rw [hs] at h
    have ⟨hlen, hdec, hnc⟩ := splitNCommas_decomp 8 line.data fields text hs
    match fields with
    | [] => exact Except.noConfusion h
    | [_] => exact Except.noConfusion h
    | [_, _] => exact Except.noConfusion h
    | [_, _, _] => exact Except.noConfusion h
    | [_, _, _, _] => exact Except.noConfusion h
    | [_, _, _, _, _] => exact Except.noConfusion h
    | [_, _, _, _, _, _] => exact Except.noConfusion h
    | [_, _, _, _, _, _, _] => exact Except.noConfusion h
    | _ :: _ :: _ :: _ :: _ :: _ :: _ :: _ :: _ :: _ => exact Except.noConfusion h
    | [f1, f2, f3, f4, f5, f6, f7, f8] =>
      have hm : mkDialog f1 f2 f3 f4 f5 f6 f7 f8 text = .ok d := h
      unfold mkDialog at hm
      match h1 : parseIntField f1 with
      | none => rw [h1] at hm; exact Except.noConfusion hm
      | some ro =>
      rw [h1] at hm
      match h2 : parseIntField f2 with
      | none => rw [h2] at hm; exact Except.noConfusion hm
      | some ly =>
      rw [h2] at hm
      match h5 : parseIntField f5 with
      | none => rw [h5] at hm; exact Except.noConfusion hm
      | some ml =>
      rw [h5] at hm
      match h6 : parseIntField f6 with
      | none => rw [h6] at hm; exact Except.noConfusion hm
      | some mr =>
      rw [h6] at hm
      match h7 : parseIntField f7 with
      | none => rw [h7] at hm; exact Except.noConfusion hm
      | some mv =>
      rw [h7] at hm
      have h' : Except.ok (ε := ParseError)
          (ASSDialog.mk ro ly ⟨f3⟩ ⟨f4⟩ ml mr mv ⟨f8⟩ ⟨text⟩) = .ok d := hm
      injection h' with h'
      subst h'
      refine ⟨f1, f2, f5, f6, f7, ?_, hnc f1 (by simp), hnc f2 (by simp),
        hnc f3 (by simp), hnc f4 (by simp), hnc f5 (by simp), hnc f6 (by simp),
        hnc f7 (by simp), hnc f8 (by simp), h1, h2, h5, h6, h7⟩
      rw [hdec]
      simp [List.foldr_cons, List.foldr_nil, List.cons_append, List.append_assoc]

theorem split_dialog_few_commas (line : String) (h : line.data.count ',' < 8) :
    avpriv_ass_split_dialog line = .error .FieldCount := by
  have hnone : splitNCommas 8 line.data = none := by
    match hs : splitNCommas 8 line.data with
    | none => rfl
    | some p => exact absurd (splitNCommas_count 8 _ p hs) (by omega)
  rw [avpriv_ass_split_dialog, hnone]

theorem split_dialog_of_reserialize (d : ASSDialog) (hv : validDialog d) :
    avpriv_ass_split_dialog (reserializeDialog d) = .ok d := by
  have hnc : ∀ f ∈ [intToChars d.readorder, intToChars d.layer, d.style.data, d.name.data,
      intToChars d.margin_l, intToChars d.margin_r, intToChars d.margin_v, d.effect.data],
      ',' ∉ f := by
    intro f hf
    simp only [List.mem_cons, List.not_mem_nil, or_false] at hf
    rcases hf with rfl | rfl | rfl | rfl | rfl | rfl | rfl | rfl
    · exact intToChars_no_comma _
    · exact intToChars_no_comma _
    · exact hv.1
    · exact hv.2.1
    · exact intToChars_no_comma _
    · exact intToChars_no_comma _
    · exact intToChars_no_comma _
    · exact hv.2.2
  have hsplit := splitNCommas_complete
    [intToChars d.readorder, intToChars d.layer, d.style.data, d.name.data,
     intToChars d.margin_l, intToChars d.margin_r, intToChars d.margin_v, d.effect.data]
    d.text.data hnc
  have hdata : (reserializeDialog d).data =
      dialogLineChars d.readorder d.layer (some d.style) (some d.name)
        d.margin_l d.margin_r d.margin_v (some d.effect) d.text := rfl
  have hfold : dialogLineChars d.readorder d.layer (some d.style) (some d.name)
      d.margin_l d.margin_r d.margin_v (some d.effect) d.text =
      List.foldr (fun f acc => f ++ ',' :: acc) d.text.data
        [intToChars d.readorder, intToChars d.layer, d.style.data, d.name.data,
         intToChars d.margin_l, intToChars d.margin_r, intToChars d.margin_v,
         d.effect.data] := by
    simp [dialogLineChars, List.foldr_cons, List.foldr_nil, List.cons_append,
      List.append_assoc]
  have hlen8 : ([intToChars d.readorder, intToChars d.layer, d.style.data, d.name.data,
      intToChars d.margin_l, intToChars d.margin_r, intToChars d.margin_v,
      d.effect.data] : List (List Char)).length = 8 := rfl
  rw [hlen8] at hsplit
  rw [avpriv_ass_split_dialog, hdata, hfold, hsplit]
  show mkDialog (intToChars d.readorder) (intToChars d.layer) d.style.data d.name.data
    (intToChars d.margin_l) (intToChars d.margin_r) (intToChars d.margin_v)
    d.effect.data d.text.data = .ok d
  unfold mkDialog
  rw [parseIntField_intToChars, parseIntField_intToChars, parseIntField_intToChars,
    parseIntField_intToChars, parseIntField_intToChars]

/-! ### Claims C1 and C2 -/

/-- C1: parsing a dialogue line splits only on the first 8 commas — fields
1-8 (readorder, layer, style, name, margins, effect) come from the text
before the 8th comma (and are themselves comma-free), the 9th field (text)
is the remainder of the line verbatim, and a line with fewer than 8
(top-level) commas fails to parse, producing no Dialog. -/
theorem claim_C1_dialog_line_split (line : String) :
    (line.data.count ',' < 8 → avpriv_ass_split_dialog line = .error .FieldCount) ∧
    (∀ d, avpriv_ass_split_dialog line = .ok d →
      ∃ f1 f2 f5 f6 f7 : List Char,
        line.data = f1 ++ ',' :: f2 ++ ',' :: d.style.data ++ ',' :: d.name.data
          ++ ',' :: f5 ++ ',' :: f6 ++ ',' :: f7 ++ ',' :: d.effect.data ++ ',' :: d.text.data
        ∧ (',' ∉ f1) ∧ (',' ∉ f2) ∧ ',' ∉ d.style.data ∧ ',' ∉ d.name.data
        ∧ (',' ∉ f5) ∧ (',' ∉ f6) ∧ (',' ∉ f7) ∧ ',' ∉ d.effect.data
        ∧ parseIntField f1 = some d.readorder ∧ parseIntField f2 = some d.layer
        ∧ parseIntField f5 = some d.margin_l ∧ parseIntField f6 = some d.margin_r
        ∧ parseIntField f7 = some d.margin_v) :=
  ⟨split_dialog_few_commas line, fun d h => split_dialog_ok_inv line d h⟩

/-- Witness for C1 at concrete inputs: "abc" (no commas) is rejected with
`FieldCount`, and a concrete 9-field line decomposes into its
comma-delimited fields with the text taken verbatim. -/
theorem claim_C1_dialog_line_split_witness :
    avpriv_ass_split_dialog ⟨['a', 'b', 'c']⟩ = .error .FieldCount ∧
    (∃ f1 f2 f5 f6 f7 : List Char,
      ("1,2,Sty,Nm,3,4,5,Fx,a,b" : String).data = f1 ++ ',' :: f2
        ++ ',' :: (ASSDialog.mk 1 2 "Sty" "Nm" 3 4 5 "Fx" "a,b").style.data
        ++ ',' :: (ASSDialog.mk 1 2 "Sty" "Nm" 3 4 5 "Fx" "a,b").name.data
        ++ ',' :: f5 ++ ',' :: f6 ++ ',' :: f7
        ++ ',' :: (ASSDialog.mk 1 2 "Sty" "Nm" 3 4 5 "Fx" "a,b").effect.data
        ++ ',' :: (ASSDialog.mk 1 2 "Sty" "Nm" 3 4 5 "Fx" "a,b").text.data
      ∧ (',' ∉ f1) ∧ (',' ∉ f2)
      ∧ ',' ∉ (ASSDialog.mk 1 2 "Sty" "Nm" 3 4 5 "Fx" "a,b").style.data
      ∧ ',' ∉ (ASSDialog.mk 1 2 "Sty" "Nm" 3 4 5 "Fx" "a,b").name.data
      ∧ (',' ∉ f5) ∧ (',' ∉ f6) ∧ (',' ∉ f7)
      ∧ ',' ∉ (ASSDialog.mk 1 2 "Sty" "Nm" 3 4 5 "Fx" "a,b").effect.data
      ∧ parseIntField f1 = some (ASSDialog.mk 1 2 "Sty" "Nm" 3 4 5 "Fx" "a,b").readorder
      ∧ parseIntField f2 = some (ASSDialog.mk 1 2 "Sty" "Nm" 3 4 5 "Fx" "a,b").layer
      ∧ parseIntField f5 = some (ASSDialog.mk 1 2 "Sty" "Nm" 3 4 5 "Fx" "a,b").margin_l
      ∧ parseIntField f6 = some (ASSDialog.mk 1 2 "Sty" "Nm" 3 4 5 "Fx" "a,b").margin_r
      ∧ parseIntField f7 = some (ASSDialog.mk 1 2 "Sty" "Nm" 3 4 5 "Fx" "a,b").margin_v) :=
  ⟨(claim_C1_dialog_line_split ⟨['a', 'b', 'c']⟩).1 (by decide),
   (claim_C1_dialog_line_split "1,2,Sty,Nm,3,4,5,Fx,a,b").2
     (ASSDialog.mk 1 2 "Sty" "Nm" 3 4 5 "Fx" "a,b") (by rfl)⟩

/-- C2: the dialogue-line codec round-trips in both directions.  For every
Dialog built from valid field values (comma-free style/name/effect),
parsing the serialized line yields the same Dialog field-wise; and for
every line that parses, re-serializing the parsed Dialog yields a line with
the same logical content (it re-parses to the same Dialog; commas in the
9th field are never re-split and the text is never escaped). -/
theorem claim_C2_dialog_roundtrip :
    (∀ d : ASSDialog, validDialog d →
      avpriv_ass_split_dialog (reserializeDialog d) = .ok d) ∧
    (∀ (line : String) (d : ASSDialog), avpriv_ass_split_dialog line = .ok d →
      avpriv_ass_split_dialog (reserializeDialog d) = .ok d) := by
  constructor
  · exact fun d hv => split_dialog_of_reserialize d hv
  · intro line d h
    have ⟨f1, f2, f5, f6, f7, _, _, _, hst, hnm, _, _, _, hef, _⟩ :=
      split_dialog_ok_inv line d h
    exact split_dialog_of_reserialize d ⟨hst, hnm, hef⟩

/-- Witness for C2 on the spec's scenario dialog: round trip at a concrete
Dialog and at a concrete parsed line. -/
theorem claim_C2_dialog_roundtrip_witness :
    avpriv_ass_split_dialog (reserializeDialog
      (ASSDialog.mk 0 0 "Default" "" 0 0 0 "" "Hello, world")) =
      .ok (ASSDialog.mk 0 0 "Default" "" 0 0 0 "" "Hello, world") :=
  claim_C2_dialog_roundtrip.1 (ASSDialog.mk 0 0 "Default" "" 0 0 0 "" "Hello, world")
    (by refine ⟨?_, ?_, ?_⟩ <;> decide)

/-! ## Tag categories

The `ASSSplitComponents` bit constants of `libavutil/ass_split_internal.h`
lines 27-61 (these ARE in the tree). -/

def ASS_SPLIT_TEXT : Nat := 1
def ASS_SPLIT_TEXT2 : Nat := 2
def ASS_SPLIT_COLOR : Nat := 4
def ASS_SPLIT_ALPHA : Nat := 8
def ASS_SPLIT_FONT_NAME : Nat := 16
def ASS_SPLIT_FONT_SIZE : Nat := 32
def ASS_SPLIT_FONT_SCALE : Nat := 64
def ASS_SPLIT_FONT_SPACING : Nat := 128
def ASS_SPLIT_FONT_CHARSET : Nat := 256
def ASS_SPLIT_FONT_BOLD : Nat := 512
def ASS_SPLIT_FONT_ITALIC : Nat := 1024
def ASS_SPLIT_FONT_UNDERLINE : Nat := 2048
def ASS_SPLIT_FONT_STRIKEOUT : Nat := 4096
def ASS_SPLIT_TEXT_BORDER : Nat := 8192
def ASS_SPLIT_TEXT_SHADOW : Nat := 16384
def ASS_SPLIT_TEXT_ROTATE : Nat := 32768
def ASS_SPLIT_TEXT_BLUR : Nat := 65536
def ASS_SPLIT_TEXT_WRAP : Nat := 131072
def ASS_SPLIT_TEXT_ALIGNMENT : Nat := 262144
def ASS_SPLIT_CANCELLING : Nat := 524288
def ASS_SPLIT_MOVE : Nat := 1048576
def ASS_SPLIT_POS : Nat := 2097152
def ASS_SPLIT_ORIGIN : Nat := 4194304
def ASS_SPLIT_DRAW : Nat := 8388608
def ASS_SPLIT_ANIMATE : Nat := 16777216
def ASS_SPLIT_FADE : Nat := 33554432
def ASS_SPLIT_CLIP : Nat := 67108864
def ASS_SPLIT_UNKNOWN : Nat := 134217728

def ASS_SPLIT_BASIC : Nat :=
  ASS_SPLIT_TEXT2 ||| ASS_SPLIT_COLOR ||| ASS_SPLIT_ALPHA ||| ASS_SPLIT_FONT_NAME |||
  ASS_SPLIT_FONT_SIZE ||| ASS_SPLIT_FONT_SCALE ||| ASS_SPLIT_FONT_SPACING |||
  ASS_SPLIT_FONT_CHARSET ||| ASS_SPLIT_FONT_BOLD ||| ASS_SPLIT_FONT_ITALIC |||
  ASS_SPLIT_FONT_UNDERLINE ||| ASS_SPLIT_FONT_STRIKEOUT ||| ASS_SPLIT_TEXT_BORDER |||
  ASS_SPLIT_TEXT_SHADOW ||| ASS_SPLIT_TEXT_WRAP ||| ASS_SPLIT_TEXT_ALIGNMENT |||
  ASS_SPLIT_POS ||| ASS_SPLIT_CANCELLING

def ASS_SPLIT_ALL_KNOWN : Nat :=
  ASS_SPLIT_TEXT2 ||| ASS_SPLIT_COLOR ||| ASS_SPLIT_ALPHA ||| ASS_SPLIT_FONT_NAME |||
  ASS_SPLIT_FONT_SIZE ||| ASS_SPLIT_FONT_SCALE ||| ASS_SPLIT_FONT_SPACING |||
  ASS_SPLIT_FONT_CHARSET ||| ASS_SPLIT_FONT_BOLD ||| ASS_SPLIT_FONT_ITALIC |||
  ASS_SPLIT_FONT_UNDERLINE ||| ASS_SPLIT_FONT_STRIKEOUT ||| ASS_SPLIT_TEXT_BORDER |||
  ASS_SPLIT_TEXT_SHADOW ||| ASS_SPLIT_TEXT_ROTATE ||| ASS_SPLIT_TEXT_BLUR |||
  ASS_SPLIT_TEXT_WRAP ||| ASS_SPLIT_TEXT_ALIGNMENT ||| ASS_SPLIT_CANCELLING |||
  ASS_SPLIT_POS ||| ASS_SPLIT_MOVE ||| ASS_SPLIT_ORIGIN ||| ASS_SPLIT_DRAW |||
  ASS_SPLIT_ANIMATE ||| ASS_SPLIT_FADE ||| ASS_SPLIT_CLIP

/-- The category of a recognized tag, as an enum; `catBits` maps it to the
`ASS_SPLIT_*` bit used for filtering. -/
inductive TagCat where
  | text2 | colorC | alphaC | fontNameC | fontSizeC | fontScaleC | fontSpacingC
  | fontCharsetC | fontBoldC | fontItalicC | fontUnderlineC | fontStrikeoutC
  | borderC | shadowC | rotateC | blurC | wrapC | alignC | cancelC | moveCat
  | posCat | originC | drawC | animCat | fadeC | clipC | unknownC
  deriving Repr, DecidableEq

def catBits : TagCat → Nat
  | .text2 => ASS_SPLIT_TEXT ||| ASS_SPLIT_TEXT2
  | .colorC => ASS_SPLIT_COLOR
  | .alphaC => ASS_SPLIT_ALPHA
  | .fontNameC => ASS_SPLIT_FONT_NAME
  | .fontSizeC => ASS_SPLIT_FONT_SIZE
  | .fontScaleC => ASS_SPLIT_FONT_SCALE
  | .fontSpacingC => ASS_SPLIT_FONT_SPACING
  | .fontCharsetC => ASS_SPLIT_FONT_CHARSET
  | .fontBoldC => ASS_SPLIT_FONT_BOLD
  | .fontItalicC => ASS_SPLIT_FONT_ITALIC
  | .fontUnderlineC => ASS_SPLIT_FONT_UNDERLINE
  | .fontStrikeoutC => ASS_SPLIT_FONT_STRIKEOUT
  | .borderC => ASS_SPLIT_TEXT_BORDER
  | .shadowC => ASS_SPLIT_TEXT_SHADOW
  | .rotateC => ASS_SPLIT_TEXT_ROTATE
  | .blurC => ASS_SPLIT_TEXT_BLUR
  | .wrapC => ASS_SPLIT_TEXT_WRAP
  | .alignC => ASS_SPLIT_TEXT_ALIGNMENT
  | .cancelC => ASS_SPLIT_CANCELLING
  | .moveCat => ASS_SPLIT_MOVE
  | .posCat => ASS_SPLIT_POS
  | .originC => ASS_SPLIT_ORIGIN
  | .drawC => ASS_SPLIT_DRAW
  | .animCat => ASS_SPLIT_ANIMATE
  | .fadeC => ASS_SPLIT_FADE
  | .clipC => ASS_SPLIT_CLIP
  | .unknownC => ASS_SPLIT_UNKNOWN

/-! ## The override-code tokenizer (spec sections 4.3/4.4)

Everything below down to `avpriv_ass_filter_override_codes` is modelled
from the spec: the implementation `libavutil/ass_split.c` of
`avpriv_ass_split_override_codes` / `avpriv_ass_filter_override_codes`
(declared in `libavutil/ass_split_internal.h` lines 176-243) is not in the
tree.  Scan modes, the tag catalogue, argument grammars, the
conservative-delimiter skip for unknown tags, and the brace re-synthesis
of the filtering rewriter all follow the spec's wording. -/

/-- Visitor events (one per `ASSCodesCallbacks` member except `end`). -/
inductive AssEvent where
  | text (s : String)
  | hardSpace
  | newLine (forced : Bool)
  | style (c : Char) (close : Bool)
  | color (v : Nat) (id : Nat)
  | alpha (v : Nat) (id : Nat)
  | fontName (s : String)
  | fontSize (n : Int)
  | alignment (n : Nat)
  | cancel (s : Option String)
  | move (x1 y1 x2 y2 t1 t2 : Int)
  | origin (x y : Int)
  | drawingMode (n : Nat)
  | animate (t1 t2 accel : Int) (inner : String)
  | ext (id : Nat) (s : String) (p1 p2 : Int)
  deriving Repr, DecidableEq

/-- One visitor invocation: an event callback or the final `end()`. -/
inductive AssCall where
  | ev (e : AssEvent)
  | dialogEnd
  deriving Repr, DecidableEq

def isTagDelim (c : Char) : Bool := c = '\\' || c = '}'

/-- "Conservative delimiter" run of the spec: everything up to the next
backslash or closing brace. -/
def takeToDelim (cs : List Char) : List Char := cs.takeWhile (fun c => !(isTagDelim c))

def isNumTagChar (c : Char) : Bool := isDigitChar c || c = '-' || c = '.' || c = '+'

def numRun (cs : List Char) : List Char := cs.takeWhile isNumTagChar

def isHexChar (c : Char) : Bool :=
  isDigitChar c || ('a' ≤ c && c ≤ 'f') || ('A' ≤ c && c ≤ 'F')

def hexVal (c : Char) : Nat :=
  if isDigitChar c then c.toNat - 48
  else if 'a' ≤ c && c ≤ 'f' then c.toNat - 87
  else if 'A' ≤ c && c ≤ 'F' then c.toNat - 55
  else 0

def hexToNat (cs : List Char) : Nat := cs.foldl (fun a c => a * 16 + hexVal c) 0

/-- Length of one optional leading ampersand. -/
def ampLen : List Char → Nat
  | '&' :: _ => 1
  | _ => 0

/-- Length of one optional leading `H`/`h`. -/
def hMarkLen : List Char → Nat
  | c :: _ => if c = 'H' || c = 'h' then 1 else 0
  | [] => 0

/-- Consumed length of a `&H..&`-style color/alpha argument. -/
def colorArgLen (cs : List Char) : Nat :=
  let a1 := ampLen cs
  let r1 := cs.drop a1
  let hm := hMarkLen r1
  let r2 := r1.drop hm
  let hx := (r2.takeWhile isHexChar).length
  a1 + hm + hx + ampLen (r2.drop hx)

/-- Numeric value of a `&H..&`-style color/alpha argument. -/
def colorArgVal (cs : List Char) : Nat :=
  let r1 := cs.drop (ampLen cs)
  hexToNat ((r1.drop (hMarkLen r1)).takeWhile isHexChar)

/-- Consumed length of a parenthesized argument list (including both
parens when the closing one exists; to end of tag region otherwise). -/
def parenLen (cs : List Char) : Nat :=
  match cs with
  | '(' :: rest =>
    let inner := rest.takeWhile (fun c => !(c = ')'))
    if inner.length < rest.length then inner.length + 2 else inner.length + 1
  | _ => 0

/-- Inner text of a parenthesized argument list. -/
def parenInner (cs : List Char) : List Char :=
  match cs with
  | '(' :: rest => rest.takeWhile (fun c => !(c = ')'))
  | _ => []

/-- Split a char list on every comma. -/
def splitCommaAux : Nat → List Char → List (List Char)
  | 0, cs => [cs]
  | fuel+1, cs =>
    match splitFirstComma cs with
    | none => [cs]
    | some (f, r) => f :: splitCommaAux fuel r

def splitAllCommas (cs : List Char) : List (List Char) := splitCommaAux cs.length cs

/-- All comma-separated fields parsed as decimal integers, or `none`. -/
def parseIntArgs (cs : List Char) : Option (List Int) :=
  (splitAllCommas cs).mapM parseIntField

/-- Result of parsing one tag at the cursor: the visitor event, the tag's
category, and `more + 1` = number of characters consumed (so the cursor
strictly advances by construction). -/
structure TagStep where
  ev : AssEvent
  cat : TagCat
  more : Nat
  deriving Repr, DecidableEq

def mkExtNum (t : List Char) (pfx : Nat) (cat : TagCat) : TagStep :=
  ⟨.ext (catBits cat) ⟨numRun t⟩ 0 0, cat, pfx + (numRun t).length⟩

def mkExtParen (t : List Char) (pfx : Nat) (cat : TagCat) (p1 : Int) : TagStep :=
  ⟨.ext (catBits cat) ⟨parenInner t⟩ p1 0, cat, pfx + parenLen t⟩

/-- Style toggles `\b`, `\i`, `\u`, `\s`: close iff the numeric argument
is present and zero. -/
def mkStyle (t : List Char) (letter : Char) (cat : TagCat) : TagStep :=
  let ds := t.takeWhile isDigitChar
  ⟨.style letter (!ds.isEmpty && digitsToNatAux 0 ds == 0), cat, 1 + ds.length⟩

def mkColor (t : List Char) (pfx : Nat) (id : Nat) : TagStep :=
  ⟨.color (colorArgVal t) id, .colorC, pfx + colorArgLen t⟩

def mkAlpha (t : List Char) (pfx : Nat) (id : Nat) : TagStep :=
  ⟨.alpha (colorArgVal t) id, .alphaC, pfx + colorArgLen t⟩

/-- Numpad alignment normalized to the combined code:
horizontal 1..3 OR'd with vertical 0 (bottom) / 4 (middle) / 8 (top). -/
def alignFromNumpad (n : Nat) : Nat :=
  (if n ≥ 1 then (n - 1) % 3 + 1 else 0) |||
  (if n ≥ 7 then 8 else if n ≥ 4 then 4 else 0)

/-- `\move(..)` / `\pos(..)`: `\pos` is handled as a move with
`x1=x2, y1=y2, t1=t2=-1` (spec's first option); malformed argument lists
degrade to an unknown-tag event. -/
def mkMove (t : List Char) : TagStep :=
  match parseIntArgs (parenInner t) with
  | some [x1, y1, x2, y2] => ⟨.move x1 y1 x2 y2 (-1) (-1), .moveCat, 4 + parenLen t⟩
  | some [x1, y1, x2, y2, t1, t2] => ⟨.move x1 y1 x2 y2 t1 t2, .moveCat, 4 + parenLen t⟩
  | _ => ⟨.ext ASS_SPLIT_UNKNOWN ⟨parenInner t⟩ 0 0, .unknownC, 4 + parenLen t⟩

def mkPos (t : List Char) : TagStep :=
  match parseIntArgs (parenInner t) with
  | some [x, y] => ⟨.move x y x y (-1) (-1), .posCat, 3 + parenLen t⟩
  | _ => ⟨.ext ASS_SPLIT_UNKNOWN ⟨parenInner t⟩ 0 0, .unknownC, 3 + parenLen t⟩

def mkOrigin (t : List Char) : TagStep :=
  match parseIntArgs (parenInner t) with
  | some [x, y] => ⟨.origin x y, .originC, 3 + parenLen t⟩
  | _ => ⟨.ext ASS_SPLIT_UNKNOWN ⟨parenInner t⟩ 0 0, .unknownC, 3 + parenLen t⟩

/-- `\t(...)`: `(inner)`, `(accel,inner)`, `(t1,t2,inner)` or
`(t1,t2,accel,inner)`; omitted t1/t2 default 0, omitted accel defaults 1;
the inner text is the unparsed nested tag block. -/
def mkAnimate (t : List Char) : TagStep :=
  let inner := parenInner t
  let fields := splitAllCommas inner
  match fields with
  | [i] => ⟨.animate 0 0 1 ⟨i⟩, .animCat, 1 + parenLen t⟩
  | [a, i] => ⟨.animate 0 0 ((parseIntField a).getD 1) ⟨i⟩, .animCat, 1 + parenLen t⟩
  | [t1, t2, i] => ⟨.animate ((parseIntField t1).getD 0) ((parseIntField t2).getD 0) 1 ⟨i⟩,
      .animCat, 1 + parenLen t⟩
  | t1 :: t2 :: a :: rest => ⟨.animate ((parseIntField t1).getD 0) ((parseIntField t2).getD 0)
      ((parseIntField a).getD 1) ⟨List.intercalate [','] rest⟩, .animCat, 1 + parenLen t⟩
  | [] => ⟨.animate 0 0 1 "", .animCat, 1 + parenLen t⟩

/-- Parse the body of one tag, cursor just past the backslash; `more` is
the number of characters consumed after the backslash.  Longest known tag
name first; anything unrecognized is an `UNKNOWN` ext event skipped up to
the conservative delimiter. -/
def parseTagBody (r : List Char) : TagStep :=
  match r with
  | 'a' :: 'l' :: 'p' :: 'h' :: 'a' ::t => mkAlpha t 5 0
  | 'a' :: 'n' ::t =>
    let ds := t.takeWhile isDigitChar
    ⟨.alignment (alignFromNumpad (digitsToNatAux 0 ds)), .alignC, 2 + ds.length⟩
  | 'a' ::t =>
    let ds := t.takeWhile isDigitChar
    ⟨.alignment (digitsToNatAux 0 ds), .alignC, 1 + ds.length⟩
  | 'b' :: 'o' :: 'r' :: 'd' ::t => mkExtNum t 4 .borderC
  | 'b' :: 'l' :: 'u' :: 'r' ::t => mkExtNum t 4 .blurC
  | 'b' :: 'e' ::t => mkExtNum t 2 .blurC
  | 'b' ::t => mkStyle t 'b' .fontBoldC
  | 'c' :: 'l' :: 'i' :: 'p' ::t => mkExtParen t 4 .clipC 0
  | 'c' ::t => mkColor t 1 1
  | '1' :: 'c' ::t => mkColor t 2 1
  | '2' :: 'c' ::t => mkColor t 2 2
  | '3' :: 'c' ::t => mkColor t 2 3
  | '4' :: 'c' ::t => mkColor t 2 4
  | '1' :: 'a' ::t => mkAlpha t 2 1
  | '2' :: 'a' ::t => mkAlpha t 2 2
  | '3' :: 'a' ::t => mkAlpha t 2 3
  | '4' :: 'a' ::t => mkAlpha t 2 4
  | 'f' :: 's' :: 'c' :: 'x' ::t => mkExtNum t 4 .fontScaleC
  | 'f' :: 's' :: 'c' :: 'y' ::t => mkExtNum t 4 .fontScaleC
  | 'f' :: 's' :: 'p' ::t => mkExtNum t 3 .fontSpacingC
  | 'f' :: 's' ::t =>
    let ds := numRun t
    ⟨.fontSize ((parseIntField ds).getD 0), .fontSizeC, 2 + ds.length⟩
  | 'f' :: 'n' ::t => ⟨.fontName ⟨takeToDelim t⟩, .fontNameC, 2 + (takeToDelim t).length⟩
  | 'f' :: 'e' ::t => mkExtNum t 2 .fontCharsetC
  | 'f' :: 'r' ::t =>
    let ax := match t with
      | c :: _ => if c = 'x' || c = 'y' || c = 'z' then 1 else 0
      | [] => 0
    ⟨.ext (catBits .rotateC) ⟨t.take (ax + (numRun (t.drop ax)).length)⟩ 0 0, .rotateC,
      2 + ax + (numRun (t.drop ax)).length⟩
  | 'f' :: 'a' :: 'd' :: 'e' ::t => mkExtParen t 4 .fadeC 0
  | 'f' :: 'a' :: 'd' ::t => mkExtParen t 3 .fadeC 0
  | 'i' :: 'c' :: 'l' :: 'i' :: 'p' ::t => mkExtParen t 5 .clipC 1
  | 'i' ::t => mkStyle t 'i' .fontItalicC
  | 'u' ::t => mkStyle t 'u' .fontUnderlineC
  | 's' :: 'h' :: 'a' :: 'd' ::t => mkExtNum t 4 .shadowC
  | 's' ::t => mkStyle t 's' .fontStrikeoutC
  | 'q' ::t => mkExtNum t 1 .wrapC
  | 'r' ::t =>
    let nm := takeToDelim t
    ⟨.cancel (if nm.isEmpty then none else some ⟨nm⟩), .cancelC, 1 + nm.length⟩
  | 'm' :: 'o' :: 'v' :: 'e' ::t => mkMove t
  | 'p' :: 'o' :: 's' ::t => mkPos t
  | 'p' ::t =>
    let ds := t.takeWhile isDigitChar
    ⟨.drawingMode (digitsToNatAux 0 ds), .drawC, 1 + ds.length⟩
  | 'o' :: 'r' :: 'g' ::t => mkOrigin t
  | 't' ::t => mkAnimate t
  | 'h' ::_ => ⟨.hardSpace, .text2, 1⟩
  | 'n' ::_ => ⟨.newLine false, .text2, 1⟩
  | 'N' ::_ => ⟨.newLine true, .text2, 1⟩
  | other => ⟨.ext ASS_SPLIT_UNKNOWN ⟨takeToDelim other⟩ 0 0, .unknownC, (takeToDelim other).length⟩

/-- Parse one tag at the cursor inside a tag region; consumes
`(parseOneTag cs).more + 1` characters, so the scan always advances. -/
def parseOneTag (cs : List Char) : TagStep :=
  match cs with
  | '\\' :: rest => parseTagBody rest
  | other => ⟨.ext ASS_SPLIT_UNKNOWN ⟨takeToDelim other⟩ 0 0, .unknownC,
      (takeToDelim other).length - 1⟩

/-- One scanned tag: its event, category and source span. -/
structure TagTok where
  ev : AssEvent
  cat : TagCat
  src : List Char
  deriving Repr, DecidableEq

/-- Scan all tags of one brace-delimited tag region. -/
def scanTags : Nat → List Char → List TagTok
  | 0, _ => []
  | _+1, [] => []
  | fuel+1, c :: r =>
    let st := parseOneTag (c :: r)
    ⟨st.ev, st.cat, (c :: r).take (st.more + 1)⟩ :: scanTags fuel ((c :: r).drop (st.more + 1))

/-- A chunk of the payload: a literal run, a text escape (`\n`, `\N`,
`\h`, or a lone backslash), a tag group, or a swallowed stray `}`. -/
inductive Chunk where
  | lit (s : List Char)
  | esc (e : AssEvent) (src : List Char)
  | group (tags : List TagTok) (closed : Bool)
  | stray
  deriving Repr, DecidableEq

def isLitChar (c : Char) : Bool := !(c = '{' || c = '}' || c = '\\')

/-- Top-level scan: literal runs outside braces, `{ .. }` tag regions (an
unmatched `{` runs to end of string as a single tag region), stray `}`
swallowed with no effect. -/
def scanChunks : Nat → List Char → List Chunk
  | 0, _ => []
  | _+1, [] => []
  | fuel+1, c :: r =>
    if c = '{' then
      let content := r.takeWhile (fun x => !(x = '}'))
      match r.dropWhile (fun x => !(x = '}')) with
      | '}' :: r2 => .group (scanTags (content.length + 1) content) true :: scanChunks fuel r2
      | _ => [.group (scanTags (content.length + 1) content) false]
    else if c = '}' then
      .stray :: scanChunks fuel r
    else if c = '\\' then
      match r with
      | 'N' :: r2 => .esc (.newLine true) ['\\', 'N'] :: scanChunks fuel r2
      | 'n' :: r2 => .esc (.newLine false) ['\\', 'n'] :: scanChunks fuel r2
      | 'h' :: r2 => .esc .hardSpace ['\\', 'h'] :: scanChunks fuel r2
      | _ => .esc (.text "\\") ['\\'] :: scanChunks fuel r
    else
      let run := (c :: r).takeWhile isLitChar
      .lit run :: scanChunks fuel ((c :: r).dropWhile isLitChar)

def assChunks (buf : String) : List Chunk := scanChunks (buf.data.length + 1) buf.data

def chunkEvents : Chunk → List AssEvent
  | .lit s => [.text ⟨s⟩]
  | .esc e _ => [e]
  | .group tags _ => tags.map (fun t => t.ev)
  | .stray => []

/-- Source reconstruction of a chunk (braces re-synthesized around tag
groups; an unclosed group has no closing brace in the source). -/
def chunkSrc : Chunk → List Char
  | .lit s => s
  | .esc _ src => src
  | .group tags closed => '{' :: (tags.map (fun t => t.src)).flatten
      ++ (if closed then ['}'] else [])
  | .stray => ['}']

/-- Literal text survives the filter iff either text bit is requested. -/
def keepsText (keep : Nat) : Bool := keep &&& (ASS_SPLIT_TEXT ||| ASS_SPLIT_TEXT2) != 0

/-- Filtered output of a chunk: tags whose category bit is not in
`keep` are dropped, `{ }` is re-synthesized around any surviving tag
group, and empty tag groups are elided. -/
def chunkOut (keep : Nat) : Chunk → List Char
  | .lit s => if keepsText keep then s else []
  | .esc _ src => if keepsText keep then src else []
  | .group tags _ =>
    let kept := ((tags.filter (fun t => keep &&& catBits t.cat != 0)).map (fun t => t.src)).flatten
    if kept.isEmpty then [] else '{' :: kept ++ ['}']
  | .stray => []

/-- Modelled from the spec: `avpriv_ass_split_override_codes` of the
missing `libavutil/ass_split.c` (header lines 242-243): the full visitor
call sequence for a text payload, ending with exactly one `end()`. -/
def avpriv_ass_split_override_codes (buf : String) : List AssCall :=
  (((assChunks buf).map chunkEvents).flatten).map AssCall.ev ++ [.dialogEnd]

/-- Modelled from the spec: `avpriv_ass_filter_override_codes` of the
missing `libavutil/ass_split.c` (header lines 229-231): same visitor call
sequence as the plain tokenizer plus the filtered output payload
accumulated in the caller's buffer.  The rewrite itself never fails. -/
def avpriv_ass_filter_override_codes (keep : Nat) (buf : String) : List AssCall × String :=
  ((((assChunks buf).map chunkEvents).flatten).map AssCall.ev ++ [.dialogEnd],
   ⟨((assChunks buf).map (chunkOut keep)).flatten⟩)

/-- A tag group is recognized when it is closed, non-empty, and every tag
in it is a known tag. -/
def chunkRecognized : Chunk → Bool
  | .lit _ => true
  | .esc _ _ => true
  | .group tags closed => closed && !tags.isEmpty && tags.all (fun t => !(t.cat == .unknownC))
  | .stray => false

/-- "A payload containing only recognized tags": every chunk is a literal
run, a text escape, or a closed non-empty group of known tags. -/
def payloadRecognized (buf : String) : Bool := (assChunks buf).all chunkRecognized

/-! ### Scanner coverage lemmas -/

theorem scanTags_zero (cs : List Char) : scanTags 0 cs = [] := rfl

theorem scanTags_nil (fuel : Nat) : scanTags (fuel+1) [] = [] := rfl

theorem scanTags_cons (fuel : Nat) (c : Char) (r : List Char) :
    scanTags (fuel+1) (c :: r) =
      ⟨(parseOneTag (c::r)).ev, (parseOneTag (c::r)).cat,
        (c::r).take ((parseOneTag (c::r)).more + 1)⟩
        :: scanTags fuel ((c::r).drop ((parseOneTag (c::r)).more + 1)) := rfl

theorem scanChunks_zero (cs : List Char) : scanChunks 0 cs = [] := rfl

theorem scanChunks_nil (fuel : Nat) : scanChunks (fuel+1) [] = [] := rfl

theorem scanChunks_empty : ∀ fuel, scanChunks fuel [] = [] := by
  intro fuel
  cases fuel <;> rfl

theorem scanChunks_cons (fuel : Nat) (c : Char) (r : List Char) :
    scanChunks (fuel+1) (c :: r) =
      (if c = '{' then
        let content := r.takeWhile (fun x => !(x = '}'))
        match r.dropWhile (fun x => !(x = '}')) with
        | '}' :: r2 => .group (scanTags (content.length + 1) content) true :: scanChunks fuel r2
        | _ => [.group (scanTags (content.length + 1) content) false]
      else if c = '}' then
        .stray :: scanChunks fuel r
      else if c = '\\' then
        match r with
        | 'N' :: r2 => .esc (.newLine true) ['\\', 'N'] :: scanChunks fuel r2
        | 'n' :: r2 => .esc (.newLine false) ['\\', 'n'] :: scanChunks fuel r2
        | 'h' :: r2 => .esc .hardSpace ['\\', 'h'] :: scanChunks fuel r2
        | _ => .esc (.text "\\") ['\\'] :: scanChunks fuel r
      else
        let run := (c :: r).takeWhile isLitChar
        .lit run :: scanChunks fuel ((c :: r).dropWhile isLitChar)) := rfl

theorem dropWhile_head_false (p : Char → Bool) : ∀ (l : List Char) c r,
    l.dropWhile p = c :: r → p c = false := by
  intro l
  induction l with
  | nil => intro c r h; exact absurd h (by simp)
  | cons x xs ih =>
    intro c r h
    rw [List.dropWhile_cons] at h
    by_cases hx : p x
    · rw [if_pos hx] at h; exact ih c r h
    · rw [if_neg hx] at h
      injection h with h1 _
      subst h1
      simpa using hx

theorem scanTags_src_flatten : ∀ fuel cs, cs.length < fuel →
    ((scanTags fuel cs).map (fun t => t.src)).flatten = cs := by
  intro fuel
  induction fuel with
  | zero => intro cs h; omega
  | succ fuel ih =>
    intro cs h
    match cs with
    | [] => rfl
    | c :: r =>
      rw [scanTags_cons]
      have hdrop : ((c :: r).drop ((parseOneTag (c::r)).more + 1)).length < fuel := by
        rw [List.length_drop]
        simp only [List.length_cons] at h ⊢
        omega
      simp only [List.map_cons, List.flatten_cons, ih _ hdrop]
      exact List.take_append_drop _ _

theorem scanTags_src_ne_nil : ∀ fuel cs t, t ∈ scanTags fuel cs → t.src ≠ [] := by
  intro fuel
  induction fuel with
  | zero => intro cs t ht; exact absurd ht (by simp [scanTags_zero])
  | succ fuel ih =>
    intro cs t ht
    match cs with
    | [] => exact absurd ht (by simp [scanTags_nil])
    | c :: r =>
      rw [scanTags_cons] at ht
      rcases List.mem_cons.mp ht with h | h
      · subst h
        simp
      · exact ih _ t h

theorem scanChunks_brace_closed (fuel : Nat) (r r2 : List Char)
    (hdw : r.dropWhile (fun x => !(x = '}')) = '}' :: r2) :
    scanChunks (fuel+1) ('{' :: r) =
      .group (scanTags ((r.takeWhile (fun x => !(x = '}'))).length + 1)
        (r.takeWhile (fun x => !(x = '}')))) true :: scanChunks fuel r2 := by
  rw [scanChunks_cons, hdw]
  rfl

theorem scanChunks_brace_unclosed (fuel : Nat) (r : List Char)
    (hdw : r.dropWhile (fun x => !(x = '}')) = []) :
    scanChunks (fuel+1) ('{' :: r) =
      [.group (scanTags ((r.takeWhile (fun x => !(x = '}'))).length + 1)
        (r.takeWhile (fun x => !(x = '}')))) false] := by
  rw [scanChunks_cons, hdw]
  rfl

theorem scanChunks_backslash_other (fuel : Nat) (x : Char) (r2 : List Char)
    (h1 : x ≠ 'N') (h2 : x ≠ 'n') (h3 : x ≠ 'h') :
    scanChunks (fuel+1) ('\\' :: x :: r2) =
      .esc (.text "\\") ['\\'] :: scanChunks fuel (x :: r2) := by
  rw [scanChunks_cons]
  show (match x :: r2 with
    | 'N' :: r2 => Chunk.esc (.newLine true) ['\\', 'N'] :: scanChunks fuel r2
    | 'n' :: r2 => Chunk.esc (.newLine false) ['\\', 'n'] :: scanChunks fuel r2
    | 'h' :: r2 => Chunk.esc .hardSpace ['\\', 'h'] :: scanChunks fuel r2
    | _ => Chunk.esc (.text "\\") ['\\'] :: scanChunks fuel (x :: r2)) = _
  split <;> simp_all

theorem scanChunks_cons_lit (fuel : Nat) (c : Char) (r : List Char)
    (h1 : c ≠ '{') (h2 : c ≠ '}') (h3 : c ≠ '\\') :
    scanChunks (fuel+1) (c :: r) =
      .lit ((c :: r).takeWhile isLitChar) :: scanChunks fuel ((c :: r).dropWhile isLitChar) := by
  rw [scanChunks_cons, if_neg h1, if_neg h2, if_neg h3]

theorem scanChunks_src_flatten : ∀ fuel cs, cs.length < fuel →
    ((scanChunks fuel cs).map chunkSrc).flatten = cs := by
  intro fuel
  induction fuel with
  | zero => intro cs h; omega
  | succ fuel ih =>
    intro cs h
    match cs with
    | [] => rfl
    | c :: r =>
      have htd := List.takeWhile_append_dropWhile (p := fun x => !(x = '}')) (l := r)
      by_cases hc : c = '{'
      · subst hc
        match hdw : r.dropWhile (fun x => !(x = '}')) with
        | [] =>
          rw [scanChunks_brace_unclosed fuel r hdw]
          have hcov := scanTags_src_flatten ((r.takeWhile (fun x => !(x = '}'))).length + 1)
            (r.takeWhile (fun x => !(x = '}'))) (Nat.lt_succ_self _)
          rw [hdw, List.append_nil] at htd
          rw [htd] at hcov
          simp [chunkSrc, htd, hcov]
        | c' :: r2 =>
          have hc' : (!(c' = '}')) = false := dropWhile_head_false _ r c' r2 hdw
          have hc'' : c' = '}' := by
            by_cases hx : c' = '}'
            · exact hx
            · simp [hx] at hc'
          subst hc''
          rw [scanChunks_brace_closed fuel r r2 hdw]
          have hcov := scanTags_src_flatten ((r.takeWhile (fun x => !(x = '}'))).length + 1)
            (r.takeWhile (fun x => !(x = '}'))) (Nat.lt_succ_self _)
          have hlen : r2.length < fuel := by
            have : r.length = (r.takeWhile (fun x => !(x = '}'))).length + (1 + r2.length) := by
              conv_lhs => rw [← htd]
              rw [hdw]
              simp [List.length_append]
              omega
            simp only [List.length_cons] at h
            omega
          simp only [List.map_cons, List.flatten_cons, chunkSrc, hcov, ih r2 hlen]
          rw [show ('}' :: r2 : List Char) = ['}'] ++ r2 from rfl] at hdw
          conv_rhs => rw [← htd, hdw]
          simp [List.append_assoc]
      · by_cases hc2 : c = '}'
        · subst hc2
          rw [scanChunks_cons]
          rw [if_neg (by decide), if_pos rfl]
          have hlen : r.length < fuel := by
            simp only [List.length_cons] at h; omega
          simp only [List.map_cons, List.flatten_cons, chunkSrc, ih r hlen]
          rfl
        · by_cases hc3 : c = '\\'
          · subst hc3
            match r with
            | [] =>
              rw [show scanChunks (fuel+1) ['\\'] =
                .esc (.text "\\") ['\\'] :: scanChunks fuel [] from rfl,
                scanChunks_empty fuel]
              rfl
            | x :: r2 =>
              have hlen : (x :: r2).length < fuel := by
                simp only [List.length_cons] at h ⊢; omega
              have hlen2 : r2.length < fuel := by
                simp only [List.length_cons] at hlen; omega
              by_cases hx1 : x = 'N'
              · subst hx1
                rw [show scanChunks (fuel+1) ('\\' :: 'N' :: r2) =
                  .esc (.newLine true) ['\\', 'N'] :: scanChunks fuel r2 from rfl]
                simp only [List.map_cons, List.flatten_cons, chunkSrc, ih r2 hlen2]
                rfl
              · by_cases hx2 : x = 'n'
                · subst hx2
                  rw [show scanChunks (fuel+1) ('\\' :: 'n' :: r2) =
                    .esc (.newLine false) ['\\', 'n'] :: scanChunks fuel r2 from rfl]
                  simp only [List.map_cons, List.flatten_cons, chunkSrc, ih r2 hlen2]
                  rfl
                · by_cases hx3 : x = 'h'
                  · subst hx3
                    rw [show scanChunks (fuel+1) ('\\' :: 'h' :: r2) =
                      .esc .hardSpace ['\\', 'h'] :: scanChunks fuel r2 from rfl]
                    simp only [List.map_cons, List.flatten_cons, chunkSrc, ih r2 hlen2]
                    rfl
                  · rw [scanChunks_backslash_other fuel x r2 hx1 hx2 hx3]
                    simp only [List.map_cons, List.flatten_cons, chunkSrc, ih _ hlen]
                    rfl
          · rw [scanChunks_cons_lit fuel c r hc hc2 hc3]
            have hlit : isLitChar c = true := by
              simp [isLitChar, hc, hc2, hc3]
            have hlen : ((c :: r).dropWhile isLitChar).length < fuel := by
              rw [List.dropWhile_cons, if_pos hlit]
              have := (List.dropWhile_sublist (l := r) isLitChar).length_le
              simp only [List.length_cons] at h
              omega
            simp only [List.map_cons, List.flatten_cons, chunkSrc, ih _ hlen]
            exact List.takeWhile_append_dropWhile (p := isLitChar) (l := c :: r)

/-- Well-formedness carried by scanned chunks: tag source spans are
non-empty. -/
def chunkWf : Chunk → Prop
  | .group tags _ => ∀ t ∈ tags, t.src ≠ []
  | _ => True

/-- Every known tag category bit is included in `ASS_SPLIT_ALL_KNOWN`
(literal-text events carry the TEXT/TEXT2 bits, of which TEXT2 is in the
mask). -/
theorem all_known_has_cat (tc : TagCat) (h : tc ≠ .unknownC) :
    (ASS_SPLIT_ALL_KNOWN &&& catBits tc != 0) = true := by
  cases tc <;> first | decide | exact absurd rfl h

/-- Filtering with `ASS_SPLIT_ALL_KNOWN` reproduces a recognized chunk's
source bytes exactly: text survives (TEXT2 is in the mask), every tag of a
recognized group survives, and braces are re-synthesized around the
surviving (non-empty) group. -/
theorem chunkOut_all_known (ch : Chunk) (hwf : chunkWf ch)
    (hrec : chunkRecognized ch = true) :
    chunkOut ASS_SPLIT_ALL_KNOWN ch = chunkSrc ch := by
  have hkt : keepsText ASS_SPLIT_ALL_KNOWN = true := by decide
  match ch with
  | .lit s => simp [chunkOut, chunkSrc, hkt]
  | .esc e src => simp [chunkOut, chunkSrc, hkt]
  | .stray => exact absurd hrec (by simp [chunkRecognized])
  | .group tags closed =>
    simp only [chunkRecognized, Bool.and_eq_true] at hrec
    obtain ⟨⟨hclosed, hne⟩, hall⟩ := hrec
    have hfilter : tags.filter (fun t => ASS_SPLIT_ALL_KNOWN &&& catBits t.cat != 0) = tags := by
      apply List.filter_eq_self.mpr
      intro t ht
      have hk : (!(t.cat == TagCat.unknownC)) = true := (List.all_eq_true.mp hall) t ht
      apply all_known_has_cat
      intro hc
      rw [hc] at hk
      exact absurd hk (by decide)
    simp only [chunkOut, hfilter]
    match tags, hwf, hne with
    | t0 :: rest, hwf2, _ =>
      have hsrc : t0.src ≠ [] := hwf2 t0 (List.mem_cons_self t0 rest)
      have hne2 : ¬(((t0 :: rest).map (fun t => t.src)).flatten).isEmpty = true := by
        match hs0 : t0.src with
        | [] => exact absurd hs0 hsrc
        | c0 :: cr => simp [hs0]
      rw [if_neg hne2]
      have hcl : closed = true := by
        cases closed
        · simp at hclosed
        · rfl
      simp [chunkSrc, hcl]

theorem scanChunks_wf : ∀ fuel cs ch, ch ∈ scanChunks fuel cs → chunkWf ch := by
  intro fuel
  induction fuel with
  | zero => intro cs ch h; exact absurd h (by simp [scanChunks_zero])
  | succ fuel ih =>
    intro cs ch h
    match cs with
    | [] => exact absurd h (by simp [scanChunks_nil])
    | c :: r =>
      rw [scanChunks_cons] at h
      by_cases hc : c = '{'
      · rw [if_pos hc] at h
        match hdw : r.dropWhile (fun x => !(x = '}')) with
        | '}' :: r2 =>
          rw [hdw] at h
          rcases List.mem_cons.mp h with hh | hh
          · subst hh
            exact fun t ht => scanTags_src_ne_nil _ _ t ht
          · exact ih _ ch hh
        | [] =>
          rw [hdw] at h
          rcases List.mem_cons.mp h with hh | hh
          · subst hh
            exact fun t ht => scanTags_src_ne_nil _ _ t ht
          · exact absurd hh (by simp)
        | c' :: r2 =>
          rw [hdw] at h
          have hc' : (!(c' = '}')) = false := dropWhile_head_false _ r c' r2 hdw
          by_cases hcc : c' = '}'
          · subst hcc
            rcases List.mem_cons.mp h with hh | hh
            · subst hh
              exact fun t ht => scanTags_src_ne_nil _ _ t ht
            · exact ih _ ch hh
          · simp [hcc] at hc'
      · rw [if_neg hc] at h
        by_cases hc2 : c = '}'
        · rw [if_pos hc2] at h
          rcases List.mem_cons.mp h with hh | hh
          · subst hh; trivial
          · exact ih _ ch hh
        · rw [if_neg hc2] at h
          by_cases hc3 : c = '\\'
          · rw [if_pos hc3] at h
            match r with
            | [] => rcases List.mem_cons.mp h with hh | hh
                    · subst hh; trivial
                    · exact ih _ ch hh
            | x :: r2 =>
              by_cases hx1 : x = 'N'
              · subst hx1
                rcases List.mem_cons.mp h with hh | hh
                · subst hh; trivial
                · exact ih _ ch hh
              · by_cases hx2 : x = 'n'
                · subst hx2
                  rcases List.mem_cons.mp h with hh | hh
                  · subst hh; trivial
                  · exact ih _ ch hh
                · by_cases hx3 : x = 'h'
                  · subst hx3
                    rcases List.mem_cons.mp h with hh | hh
                    · subst hh; trivial
                    · exact ih _ ch hh
                  · rw [show (match x :: r2 with
                      | 'N' :: r2 => Chunk.esc (.newLine true) ['\\', 'N'] :: scanChunks fuel r2
                      | 'n' :: r2 => Chunk.esc (.newLine false) ['\\', 'n'] :: scanChunks fuel r2
                      | 'h' :: r2 => Chunk.esc .hardSpace ['\\', 'h'] :: scanChunks fuel r2
                      | _ => Chunk.esc (.text "\\") ['\\'] :: scanChunks fuel (x :: r2)) =
                      Chunk.esc (.text "\\") ['\\'] :: scanChunks fuel (x :: r2) from by
                        split <;> simp_all] at h
                    rcases List.mem_cons.mp h with hh | hh
                    · subst hh; trivial
                    · exact ih _ ch hh
          · rw [if_neg hc3] at h
            rcases List.mem_cons.mp h with hh | hh
            · subst hh; trivial
            · exact ih _ ch hh

/-- C3: filtering a payload that contains only recognized tags with
`keep_flags = ASS_SPLIT_ALL_KNOWN` reproduces the original payload
byte-for-byte (braces re-synthesized around every surviving tag group);
and empty tag groups are elided from the output, shown at the concrete
payload `a{}b` which filters to `ab`. -/
theorem claim_C3_filter_all_known_idempotent :
    (∀ s : String, payloadRecognized s = true →
      (avpriv_ass_filter_override_codes ASS_SPLIT_ALL_KNOWN s).2 = s) ∧
    (avpriv_ass_filter_override_codes ASS_SPLIT_ALL_KNOWN
      ⟨['a', '{', '}', 'b']⟩).2 = ⟨['a', 'b']⟩ := by
  constructor
  · intro s hrec
    show (⟨((assChunks s).map (chunkOut ASS_SPLIT_ALL_KNOWN)).flatten⟩ : String) = s
    have hmap : (assChunks s).map (chunkOut ASS_SPLIT_ALL_KNOWN) =
        (assChunks s).map chunkSrc := by
      apply List.map_congr_left
      intro ch hch
      exact chunkOut_all_known ch (scanChunks_wf _ _ ch hch)
        ((List.all_eq_true.mp hrec) ch hch)
    rw [hmap, show assChunks s = scanChunks (s.data.length + 1) s.data from rfl,
      scanChunks_src_flatten (s.data.length + 1) s.data (Nat.lt_succ_self _)]
  · rfl

/-- Witness for C3 at the spec's own test payload: it is recognized-only,
and filtering it with `ASS_SPLIT_ALL_KNOWN` is the identity. -/
theorem claim_C3_filter_all_known_idempotent_witness :
    payloadRecognized "\x7b\\b1\x7dBold\x7b\\b0\x7d plain" = true ∧
    (avpriv_ass_filter_override_codes ASS_SPLIT_ALL_KNOWN
      "\x7b\\b1\x7dBold\x7b\\b0\x7d plain").2 = "\x7b\\b1\x7dBold\x7b\\b0\x7d plain" :=
  ⟨by decide, claim_C3_filter_all_known_idempotent.1 _ (by decide)⟩

/-- C6: one tokenizer invocation issues the `end()` visitor call exactly
once, as the last call, for every payload (including the empty one).  The
scan itself is a total function built from a strictly advancing cursor
(every parse step consumes `more + 1 ≥ 1` characters), so it terminates on
all inputs and malformed content is never fatal. -/
theorem claim_C6_end_exactly_once (s : String) :
    (avpriv_ass_split_override_codes s).count AssCall.dialogEnd = 1 ∧
    (avpriv_ass_split_override_codes s).getLast? = some AssCall.dialogEnd ∧
    avpriv_ass_split_override_codes s ≠ [] := by
  have hnomem : AssCall.dialogEnd ∉
      (((assChunks s).map chunkEvents).flatten).map AssCall.ev := by
    intro hmem
    obtain ⟨e, _, he⟩ := List.mem_map.mp hmem
    exact AssCall.noConfusion he
  refine ⟨?_, ?_, ?_⟩
  · show ((((assChunks s).map chunkEvents).flatten).map AssCall.ev
      ++ [AssCall.dialogEnd]).count AssCall.dialogEnd = 1
    rw [List.count_append, List.count_eq_zero.mpr hnomem]
    rfl
  · show ((((assChunks s).map chunkEvents).flatten).map AssCall.ev
      ++ [AssCall.dialogEnd]).getLast? = some AssCall.dialogEnd
    rw [List.getLast?_append]
    rfl
  · show (((assChunks s).map chunkEvents).flatten).map AssCall.ev
      ++ [AssCall.dialogEnd] ≠ []
    simp

/-! ## The stripstyles filter (`libavfilter/sf_stripstyles.c`, in the tree)

The visitor state and callbacks are translated from `DialogContext` and
`dialog_*_cb` (lines 40-92); `process_dialog` from lines 94-121.
Allocation failure is not modelled, so the output buffer is always
"complete". -/

structure StripStylesContext where
  remove_animated : Bool
  keep_flags : Nat
  select_layer : Int
  deriving Repr, DecidableEq

structure DialogContext where
  drawing_scale : Nat
  is_animated : Bool
  plain_text_length : Nat
  deriving Repr, DecidableEq

/-- Zero-initialized visitor state (`DialogContext dlg_ctx = { ... }`). -/
def initDialogContext : DialogContext := ⟨0, false, 0⟩

/-- One visitor callback dispatch of the stripstyles filter:
`dialog_text_cb` counts plain text only while not drawing and (unless
`remove_animated` is off) not animated; `dialog_new_line_cb` counts 2 while
not drawing and not animated; `dialog_drawing_mode_cb` stores the scale;
`dialog_animate_cb` marks animation; `dialog_move_cb` marks animation when
a time is present.  Callbacks not set in `dialog_callbacks` are no-ops. -/
def stripstyles_step (ss : StripStylesContext) (s : DialogContext) : AssCall → DialogContext
  | .ev (.text t) =>
    if s.drawing_scale = 0 ∧ (s.is_animated = false ∨ ss.remove_animated = false) then
      { s with plain_text_length := s.plain_text_length + t.length }
    else s
  | .ev (.newLine _) =>
    if s.drawing_scale = 0 ∧ s.is_animated = false then
      { s with plain_text_length := s.plain_text_length + 2 }
    else s
  | .ev (.drawingMode n) => { s with drawing_scale := n }
  | .ev (.animate _ _ _ _) => { s with is_animated := true }
  | .ev (.move _ _ _ _ t1 t2) =>
    if t1 ≥ 0 ∨ t2 ≥ 0 then { s with is_animated := true } else s
  | _ => s

/-- `process_dialog` of sf_stripstyles.c: parse the line, apply the layer
filter, run the filtering rewriter with the configured keep flags, and
re-serialize iff the output buffer is nonempty and some plain text was
counted; `None` models every NULL return. -/
def process_dialog (ss : StripStylesContext) (ass_line : String) : Option String :=
  match avpriv_ass_split_dialog ass_line with
  | .error _ => none
  | .ok dialog =>
    if ss.select_layer ≥ 0 ∧ dialog.layer ≠ ss.select_layer then none
    else
      let fr := avpriv_ass_filter_override_codes ss.keep_flags dialog.text
      let st := fr.1.foldl (stripstyles_step ss) initDialogContext
      if 0 < fr.2.length ∧ 0 < st.plain_text_length then
        some (avpriv_ass_get_dialog_ex dialog.readorder dialog.layer (some dialog.style)
          (some dialog.name) dialog.margin_l dialog.margin_r dialog.margin_v
          (some dialog.effect) fr.2)
      else none

theorem stripstyles_step_drawing_scale (ss : StripStylesContext) (s : DialogContext)
    (e : AssCall) (he : ∀ k, e ≠ .ev (.drawingMode k)) :
    (stripstyles_step ss s e).drawing_scale = s.drawing_scale := by
  match e with
  | .dialogEnd => rfl
  | .ev (.text t) => simp only [stripstyles_step]; split <;> rfl
  | .ev .hardSpace => rfl
  | .ev (.newLine f) => simp only [stripstyles_step]; split <;> rfl
  | .ev (.style c cl) => rfl
  | .ev (.color v i) => rfl
  | .ev (.alpha v i) => rfl
  | .ev (.fontName nm) => rfl
  | .ev (.fontSize n) => rfl
  | .ev (.alignment n) => rfl
  | .ev (.cancel nm) => rfl
  | .ev (.move a b c d t1 t2) => simp only [stripstyles_step]; split <;> rfl
  | .ev (.origin x y) => rfl
  | .ev (.drawingMode k) => exact absurd rfl (he k)
  | .ev (.animate a b c d) => rfl
  | .ev (.ext i t p1 p2) => rfl

theorem stripstyles_foldl_drawing_scale (ss : StripStylesContext) :
    ∀ (L : List AssCall) (s : DialogContext),
    (∀ e ∈ L, ∀ k, e ≠ .ev (.drawingMode k)) →
    (L.foldl (stripstyles_step ss) s).drawing_scale = s.drawing_scale := by
  intro L
  induction L with
  | nil => intro s _; rfl
  | cons e L ih =>
    intro s hL
    rw [List.foldl_cons]
    rw [ih _ (fun x hx k => hL x (List.mem_cons_of_mem e hx) k)]
    exact stripstyles_step_drawing_scale ss s e (hL e (List.mem_cons_self e L))

/-- C4: the tokenizer still delivers `text(...)` for every literal run
while the persistent drawing flag is set (shown on the spec's example
payload, whose call sequence is `drawing_mode(1)`, `text("M 0 0 L 10 10")`,
`drawing_mode(0)`, `text("after")`, `end()`), and it is the stripstyles
visitor that suppresses the accounting: after `drawing_mode(n)` with
`n ≠ 0` and before any further drawing_mode call, a text callback leaves
`plain_text_length` unchanged, while after `drawing_mode(0)` a text
callback adds the text length again (when no animation suppression is
active). -/
theorem claim_C4_drawing_mode_visitor_suppression :
    (avpriv_ass_split_override_codes "\x7b\\p1\x7dM 0 0 L 10 10\x7b\\p0\x7dafter" =
      [.ev (.drawingMode 1), .ev (.text "M 0 0 L 10 10"), .ev (.drawingMode 0),
       .ev (.text "after"), .dialogEnd]) ∧
    (∀ (ss : StripStylesContext) (st : DialogContext) (n : Nat) (t : String)
       (L : List AssCall), n ≠ 0 → (∀ e ∈ L, ∀ k, e ≠ .ev (.drawingMode k)) →
      (stripstyles_step ss (L.foldl (stripstyles_step ss)
          (stripstyles_step ss st (.ev (.drawingMode n)))) (.ev (.text t))).plain_text_length
        = (L.foldl (stripstyles_step ss)
            (stripstyles_step ss st (.ev (.drawingMode n)))).plain_text_length) ∧
    (∀ (ss : StripStylesContext) (st : DialogContext) (t : String),
      (st.is_animated = false ∨ ss.remove_animated = false) →
      (stripstyles_step ss (stripstyles_step ss st (.ev (.drawingMode 0)))
        (.ev (.text t))).plain_text_length = st.plain_text_length + t.length) := by
  refine ⟨by decide, ?_, ?_⟩
  · intro ss st n t L hn hL
    have hds : (L.foldl (stripstyles_step ss)
        (⟨n, st.is_animated, st.plain_text_length⟩ : DialogContext)).drawing_scale = n := by
      rw [stripstyles_foldl_drawing_scale ss L _ hL]
    show (stripstyles_step ss (L.foldl (stripstyles_step ss)
        (⟨n, st.is_animated, st.plain_text_length⟩ : DialogContext))
        (.ev (.text t))).plain_text_length = _
    simp only [stripstyles_step]
    rw [if_neg]
    intro ⟨h1, _⟩
    rw [hds] at h1
    exact hn h1
  · intro ss st t hna
    show (stripstyles_step ss ⟨0, st.is_animated, st.plain_text_length⟩
      (.ev (.text t))).plain_text_length = st.plain_text_length + t.length
    simp only [stripstyles_step]
    rw [if_pos ⟨by trivial, hna⟩]

/-- Witness for C4 at concrete inputs: with the drawing flag at 1 (and an
intervening style callback), text is not counted; after `drawing_mode(0)`
a 5-char text adds 5. -/
theorem claim_C4_drawing_mode_visitor_suppression_witness :
    (stripstyles_step ⟨true, 1, -1⟩ ((([AssCall.ev (.style 'b' false)]).foldl
        (stripstyles_step ⟨true, 1, -1⟩)
        (stripstyles_step ⟨true, 1, -1⟩ ⟨0, false, 7⟩ (.ev (.drawingMode 1)))))
      (.ev (.text "M 0 0"))).plain_text_length
      = (([AssCall.ev (.style 'b' false)]).foldl (stripstyles_step ⟨true, 1, -1⟩)
        (stripstyles_step ⟨true, 1, -1⟩ ⟨0, false, 7⟩ (.ev (.drawingMode 1)))).plain_text_length ∧
    (stripstyles_step ⟨true, 1, -1⟩ (stripstyles_step ⟨true, 1, -1⟩ ⟨3, false, 7⟩
      (.ev (.drawingMode 0))) (.ev (.text "after"))).plain_text_length = 7 + 5 :=
  ⟨claim_C4_drawing_mode_visitor_suppression.2.1 ⟨true, 1, -1⟩ ⟨0, false, 7⟩ 1 "M 0 0"
      [AssCall.ev (.style 'b' false)] (by decide)
      (by intro e he k; simp only [List.mem_singleton] at he; subst he; simp),
   claim_C4_drawing_mode_visitor_suppression.2.2 ⟨true, 1, -1⟩ ⟨3, false, 7⟩ "after"
      (Or.inl rfl)⟩

/-- C5: the filtering rewrite itself is total (it is a function in this
model, and allocation failure — the one way the C buffer can be
incomplete — is not modelled), and whether the rewritten Dialog is emitted
is the visitor's decision: `process_dialog` returns a line iff the input
parses, the layer filter passes, the accumulated output is nonempty, and
the visitor counted positive plain text; the emitted line is exactly the
re-serialization of the parsed fields around the filtered text. -/
theorem claim_C5_process_dialog_emission (ss : StripStylesContext) (line : String) :
    ((process_dialog ss line).isSome = true ↔
      (∃ d, avpriv_ass_split_dialog line = .ok d ∧
        (ss.select_layer < 0 ∨ d.layer = ss.select_layer) ∧
        0 < (avpriv_ass_filter_override_codes ss.keep_flags d.text).2.length ∧
        0 < ((avpriv_ass_filter_override_codes ss.keep_flags d.text).1.foldl
          (stripstyles_step ss) initDialogContext).plain_text_length)) ∧
    (∀ d r, avpriv_ass_split_dialog line = .ok d → process_dialog ss line = some r →
      r = avpriv_ass_get_dialog_ex d.readorder d.layer (some d.style) (some d.name)
        d.margin_l d.margin_r d.margin_v (some d.effect)
        (avpriv_ass_filter_override_codes ss.keep_flags d.text).2) := by
  match hp : avpriv_ass_split_dialog line with
  | .error e =>
    constructor
    · rw [process_dialog, hp]
      simp only [Option.isSome_none, Bool.false_eq_true, false_iff]
      intro ⟨d, hd, _⟩
      exact Except.noConfusion hd
    · intro d r hd
      exact Except.noConfusion hd
  | .ok d0 =>
    have hpd : process_dialog ss line =
        (if ss.select_layer ≥ 0 ∧ d0.layer ≠ ss.select_layer then none
        else
          if 0 < (avpriv_ass_filter_override_codes ss.keep_flags d0.text).2.length ∧
              0 < ((avpriv_ass_filter_override_codes ss.keep_flags d0.text).1.foldl
                (stripstyles_step ss) initDialogContext).plain_text_length then
            some (avpriv_ass_get_dialog_ex d0.readorder d0.layer (some d0.style)
              (some d0.name) d0.margin_l d0.margin_r d0.margin_v
              (some d0.effect) (avpriv_ass_filter_override_codes ss.keep_flags d0.text).2)
          else none) := by
      rw [process_dialog, hp]
    constructor
    · rw [hpd]
      by_cases hsel : ss.select_layer ≥ 0 ∧ d0.layer ≠ ss.select_layer
      · rw [if_pos hsel]
        simp only [Option.isSome_none, Bool.false_eq_true, false_iff]
        intro ⟨d, hd, hcond, _⟩
        have hdd : d = d0 := by
          injection hd with h
          exact h.symm
        subst hdd
        rcases hcond with hlt | heq
        · omega
        · exact hsel.2 heq
      · rw [if_neg hsel]
        by_cases hbuf : 0 < (avpriv_ass_filter_override_codes ss.keep_flags d0.text).2.length ∧
            0 < ((avpriv_ass_filter_override_codes ss.keep_flags d0.text).1.foldl
              (stripstyles_step ss) initDialogContext).plain_text_length
        · rw [if_pos hbuf]
          simp only [Option.isSome_some, true_iff]
          refine ⟨d0, rfl, ?_, hbuf.1, hbuf.2⟩
          by_cases hge : ss.select_layer ≥ 0
          · right
            by_contra hne
            exact hsel ⟨hge, hne⟩
          · left
            omega
        · rw [if_neg hbuf]
          simp only [Option.isSome_none, Bool.false_eq_true, false_iff]
          intro ⟨d, hd, _, hb1, hb2⟩
          have hdd : d = d0 := by
            injection hd with h
            exact h.symm
          subst hdd
          exact hbuf ⟨hb1, hb2⟩
    · intro d r hd hr
      have hdd : d = d0 := by
        injection hd with h
        exact h.symm
      subst hdd
      rw [hpd] at hr
      by_cases hsel : ss.select_layer ≥ 0 ∧ d.layer ≠ ss.select_layer
      · rw [if_pos hsel] at hr
        exact Option.noConfusion hr
      · rw [if_neg hsel] at hr
        by_cases hbuf : 0 < (avpriv_ass_filter_override_codes ss.keep_flags d.text).2.length ∧
            0 < ((avpriv_ass_filter_override_codes ss.keep_flags d.text).1.foldl
              (stripstyles_step ss) initDialogContext).plain_text_length
        · rw [if_pos hbuf] at hr
          injection hr with h
          exact h.symm
        · rw [if_neg hbuf] at hr
          exact Option.noConfusion hr

/-- Witness for C5: a concrete line that is emitted (its text survives a
TEXT-only filter), exercising the second clause at its concrete output. -/
theorem claim_C5_process_dialog_emission_witness :
    "1,0,Default,,0,0,0,,Hi" = avpriv_ass_get_dialog_ex 1 0 (some "Default") (some "")
      0 0 0 (some "") (avpriv_ass_filter_override_codes ASS_SPLIT_TEXT "Hi").2 :=
  (claim_C5_process_dialog_emission ⟨true, ASS_SPLIT_TEXT, -1⟩
    "1,0,Default,,0,0,0,,Hi").2 (ASSDialog.mk 1 0 "Default" "" 0 0 0 "" "Hi")
    "1,0,Default,,0,0,0,,Hi" (by rfl) (by decide)

/-! ## The WebVTT encoder tag stack (`libavcodec/webvttenc.c`, in the tree)

`webvtt_stack_push` / `webvtt_stack_pop` / `webvtt_stack_find` /
`webvtt_stack_push_pop` translate lines 55-94.  The 64-byte `char
stack[WEBVTT_STACK_SIZE]` is a `List Char`; `stack_ptr` keeps its C `int`
type.  The emitted `</x>` close tags are returned as the list of popped
letters; the `av_log` overflow message is the returned Boolean. -/

def WEBVTT_STACK_SIZE : Nat := 64

structure WebVTTStackState where
  stack : List Char
  stack_ptr : Int
  deriving Repr, DecidableEq

def webvtt_stack_push (s : WebVTTStackState) (c : Char) : Int × WebVTTStackState :=
  if s.stack_ptr ≥ 64 then (-1, s)
  else (0, ⟨s.stack.set s.stack_ptr.toNat c, s.stack_ptr + 1⟩)

def webvtt_stack_pop (s : WebVTTStackState) : Char × WebVTTStackState :=
  if s.stack_ptr ≤ 0 then (Char.ofNat 0, s)
  else (s.stack.getD (s.stack_ptr - 1).toNat (Char.ofNat 0), ⟨s.stack, s.stack_ptr - 1⟩)

def webvtt_stack_find_aux (stack : List Char) (c : Char) : Nat → Int
  | 0 => -1
  | i+1 => if stack.getD i (Char.ofNat 0) = c then Int.ofNat i
           else webvtt_stack_find_aux stack c i

def webvtt_stack_find (s : WebVTTStackState) (c : Char) : Int :=
  webvtt_stack_find_aux s.stack c s.stack_ptr.toNat

/-- The `while (s->stack_ptr != i) webvtt_close_tag(s, webvtt_stack_pop(s))`
loop; fuel `(stack_ptr - i).toNat` matches the loop's trip count for the
states the C code reaches (`0 ≤ i ≤ stack_ptr`). -/
def webvtt_pop_until_aux (i : Int) : Nat → WebVTTStackState → WebVTTStackState × List Char
  | 0, s => (s, [])
  | fuel+1, s =>
    if s.stack_ptr = i then (s, [])
    else
      let p := webvtt_stack_pop s
      let r := webvtt_pop_until_aux i fuel p.2
      (r.1, p.1 :: r.2)

def webvtt_stack_push_pop (s : WebVTTStackState) (c : Char) (close : Bool) :
    WebVTTStackState × List Char × Bool :=
  if close then
    let i := if c = Char.ofNat 0 then 0 else webvtt_stack_find s c
    if i < 0 then (s, [], false)
    else
      let r := webvtt_pop_until_aux i (s.stack_ptr - i).toNat s
      (r.1, r.2, false)
  else
    let r := webvtt_stack_push s c
    (r.2, [], decide (r.1 < 0))

/-- C7: the re-emission tag stack is bounded at 64 entries and overflow is
local and non-fatal: a push at `stack_ptr ≥ 64` returns -1 and leaves both
the stack contents and `stack_ptr` unchanged (no out-of-bounds write);
`webvtt_stack_push_pop` merely reports the overflow (the log) with the
state unchanged and processing continues; and a pop on an empty stack
returns the NUL character without decrementing `stack_ptr` below zero. -/
theorem claim_C7_webvtt_stack_bounded (s t : WebVTTStackState) (c : Char)
    (hs : s.stack_ptr ≥ 64) (ht : t.stack_ptr ≤ 0) :
    webvtt_stack_push s c = (-1, s) ∧
    webvtt_stack_push_pop s c false = (s, [], true) ∧
    webvtt_stack_pop t = (Char.ofNat 0, t) := by
  have hpush : webvtt_stack_push s c = (-1, s) := by
    rw [webvtt_stack_push, if_pos hs]
  refine ⟨hpush, ?_, ?_⟩
  · show (let r := webvtt_stack_push s c
      ((r.2, [], decide (r.1 < 0)) : WebVTTStackState × List Char × Bool)) = (s, [], true)
    rw [hpush]
    rfl
  · rw [webvtt_stack_pop, if_pos ht]

/-- Witness for C7 at a full stack (64 entries) and an empty stack. -/
theorem claim_C7_webvtt_stack_bounded_witness :
    webvtt_stack_push ⟨List.replicate 64 'b', 64⟩ 'i' = (-1, ⟨List.replicate 64 'b', 64⟩) ∧
    webvtt_stack_push_pop ⟨List.replicate 64 'b', 64⟩ 'i' false =
      (⟨List.replicate 64 'b', 64⟩, [], true) ∧
    webvtt_stack_pop ⟨List.replicate 64 'b', 0⟩ = (Char.ofNat 0, ⟨List.replicate 64 'b', 0⟩) :=
  claim_C7_webvtt_stack_bounded ⟨List.replicate 64 'b', 64⟩ ⟨List.replicate 64 'b', 0⟩ 'i'
    (by decide) (by decide)

/-! ## Error conflation in the callers (webvttenc.c / sf_textmod.c) -/

inductive AVError where
  | ENOMEM
  | EINVAL
  deriving Repr, DecidableEq

structure AVSubtitleArea where
  isAssFormat : Bool
  ass : Option String
  deriving Repr, DecidableEq

/-- The per-area loop of `webvtt_encode_frame` (webvttenc.c lines
205-221): a non-ASS area is `AVERROR(EINVAL)`; an area whose dialogue
line makes `avpriv_ass_split_dialog` return NULL — grammar failure or
out-of-memory alike — is reported as `AVERROR(ENOMEM)`. -/
def webvtt_encode_areas : List AVSubtitleArea → Except AVError Unit
  | [] => .ok ()
  | a :: rest =>
    if a.isAssFormat = false then .error .EINVAL
    else
      match a.ass with
      | none => webvtt_encode_areas rest
      | some line =>
        match avpriv_ass_split_dialog line with
        | .error _ => .error .ENOMEM
        | .ok _ => webvtt_encode_areas rest

/-- The generic `process_dialog` of sf_textmod.c (lines 549-570): NULL
from the parser propagates as NULL.  `tf` abstracts `process_text`
(character/word rewriting, orthogonal to the error path; `none` would be
its allocation failure). -/
def textmod_process_dialog (tf : String → Option String) (line : String) : Option String :=
  match avpriv_ass_split_dialog line with
  | .error _ => none
  | .ok d =>
    match tf d.text with
    | none => none
    | some text => some (avpriv_ass_get_dialog_ex d.readorder d.layer (some d.style)
        (some d.name) d.margin_l d.margin_r d.margin_v (some d.effect) text)

/-- The per-area loop of textmod's `filter_frame` (sf_textmod.c lines
596-606): a NULL from `process_dialog` — whatever its cause — is reported
as `AVERROR(ENOMEM)`. -/
def textmod_filter_frame (tf : String → Option String) :
    List (Option String) → Except AVError (List (Option String))
  | [] => .ok []
  | none :: rest => (textmod_filter_frame tf rest).map (fun l => none :: l)
  | some line :: rest =>
    match textmod_process_dialog tf line with
    | none => .error .ENOMEM
    | some r => (textmod_filter_frame tf rest).map (fun l => some r :: l)

/-- C8: the parser signals grammar failure and allocation failure with the
same NULL sentinel, and both callers translate that NULL into
`AVERROR(ENOMEM)`: whenever `avpriv_ass_split_dialog` fails — in
particular on a malformed line with fewer than 8 commas, where the failure
is a grammar error, not out-of-memory — `webvtt_encode_frame` and
textmod's `filter_frame` report ENOMEM.  (Actual allocation failure is not
modelled; it takes the same NULL path in the C code.) -/
theorem claim_C8_null_sentinel_reported_as_enomem (line : String) (e : ParseError)
    (tf : String → Option String) (areas : List AVSubtitleArea)
    (rest : List (Option String))
    (hp : avpriv_ass_split_dialog line = .error e) :
    webvtt_encode_areas (⟨true, some line⟩ :: areas) = .error .ENOMEM ∧
    textmod_filter_frame tf (some line :: rest) = .error .ENOMEM := by
  constructor
  · have h1 : webvtt_encode_areas (⟨true, some line⟩ :: areas) =
        (match avpriv_ass_split_dialog line with
        | .error _ => .error .ENOMEM
        | .ok _ => webvtt_encode_areas areas) := rfl
    rw [h1, hp]
  · have h2 : textmod_filter_frame tf (some line :: rest) =
        (match textmod_process_dialog tf line with
        | none => .error .ENOMEM
        | some r => (textmod_filter_frame tf rest).map (fun l => some r :: l)) := rfl
    have h3 : textmod_process_dialog tf line = none := by
      rw [textmod_process_dialog, hp]
    rw [h2, h3]

/-- Witness for C8: the malformed line `abc` (no commas — a pure grammar
failure) is reported as ENOMEM by both callers. -/
theorem claim_C8_null_sentinel_reported_as_enomem_witness :
    webvtt_encode_areas [⟨true, some "abc"⟩] = .error .ENOMEM ∧
    textmod_filter_frame some [some "abc"] = .error .ENOMEM :=
  claim_C8_null_sentinel_reported_as_enomem "abc" .FieldCount some [] [] (by rfl)

/-! ## Default style (`libavutil/ass_internal.h` lines 28-44, in the tree)

The `ASS_DEFAULT_*` macros are translated verbatim from the header. -/

def ASS_DEFAULT_PLAYRESX : Nat := 384
def ASS_DEFAULT_PLAYRESY : Nat := 288
def ASS_DEFAULT_FONT : String := "Arial"
def ASS_DEFAULT_FONT_SIZE : Nat := 16
def ASS_DEFAULT_COLOR : Nat := 0xffffff
def ASS_DEFAULT_BACK_COLOR : Nat := 0
def ASS_DEFAULT_BOLD : Nat := 0
def ASS_DEFAULT_ITALIC : Nat := 0
def ASS_DEFAULT_UNDERLINE : Nat := 0
def ASS_DEFAULT_ALIGNMENT : Nat := 2
def ASS_DEFAULT_BORDERSTYLE : Nat := 1

/-- Style record shape (`ASSStyle` of ass_split_internal.h lines 77-104);
the float-typed fields the claims do not touch (scale, spacing, angle) are
omitted, and the integral-valued `outline`/`shadow` defaults are kept as
naturals. -/
structure ASSStyle where
  name : String
  font_name : String
  font_size : Nat
  primary_color : Nat
  secondary_color : Nat
  outline_color : Nat
  back_color : Nat
  bold : Nat
  italic : Nat
  underline : Nat
  strikeout : Nat
  border_style : Nat
  outline : Nat
  shadow : Nat
  alignment : Nat
  deriving Repr, DecidableEq

structure ASSScriptInfo where
  play_res_x : Nat
  play_res_y : Nat
  deriving Repr, DecidableEq

def default_script_info : ASSScriptInfo := ⟨ASS_DEFAULT_PLAYRESX, ASS_DEFAULT_PLAYRESY⟩

/-- Modelled from the spec: the fallback style synthesized by
`avpriv_ass_get_subtitle_header_default` of the missing
`libavutil/ass.c` (declared in ass_internal.h lines 100-107).  Fields
covered by the in-tree `ASS_DEFAULT_*` macros take the macro values; the
remaining fields (secondary/outline colors, outline width 2, shadow 3)
follow spec section 4.2. -/
def default_style : ASSStyle :=
  ⟨"Default", ASS_DEFAULT_FONT, ASS_DEFAULT_FONT_SIZE,
   ASS_DEFAULT_COLOR, ASS_DEFAULT_COLOR, 0, ASS_DEFAULT_BACK_COLOR,
   ASS_DEFAULT_BOLD, ASS_DEFAULT_ITALIC, ASS_DEFAULT_UNDERLINE, 0,
   ASS_DEFAULT_BORDERSTYLE, 2, 3, ASS_DEFAULT_ALIGNMENT⟩

/-- C9 counterexample: the claim, instantiated to this repository's
defaults, asserts a visually-bold default weight (~200); but the tree
defines `ASS_DEFAULT_BOLD 0` (ass_internal.h line 39), so the conjunction
as claimed is false: the default style's bold weight is 0. -/
theorem claim_C9_counterexample :
    ¬(default_script_info.play_res_x = 384 ∧ default_script_info.play_res_y = 288 ∧
      default_style.primary_color = 0xffffff ∧ default_style.bold ≠ 0 ∧
      default_style.border_style = 1 ∧ default_style.outline = 2 ∧
      default_style.shadow = 3 ∧ default_style.alignment = 2) := by
  intro h
  exact h.2.2.2.1 rfl

/-- C9 amended: the synthesized fallback style has play resolution
384×288, primary color opaque white (low 24 bits 0xffffff, transparency
byte 0), bold weight 0 (regular, `ASS_DEFAULT_BOLD`), border_style 1
(outline), outline 2, shadow 3, and alignment 2 (bottom-center). -/
theorem claim_C9_default_style_amended :
    default_script_info.play_res_x = 384 ∧ default_script_info.play_res_y = 288 ∧
    default_style.primary_color % 16777216 = 0xffffff ∧
    default_style.primary_color / 16777216 = 0 ∧
    default_style.bold = ASS_DEFAULT_BOLD ∧ ASS_DEFAULT_BOLD = 0 ∧
    default_style.border_style = 1 ∧ default_style.outline = 2 ∧
    default_style.shadow = 3 ∧ default_style.alignment = 2 := by
  refine ⟨rfl, rfl, by decide, by decide, rfl, rfl, rfl, rfl, rfl, rfl⟩

/-! ## The showspeaker brace scan (`libavfilter/sf_textmod.c`, in the tree)

`speaker_insert_pos` translates the ad hoc scan of
`process_dialog_show_speaker` (lines 471-485): walk the text, incrementing
the counter at `{` and decrementing at `}`, and stop at the first index
where the counter is zero after both updates; if the loop never stops,
`pos` keeps its initial value 0. -/

def speaker_insert_pos_aux : List Char → Nat → Int → Option Nat
  | [], _, _ => none
  | c :: r, i, lvl =>
    let lvl1 := if c = '{' then lvl + 1 else lvl
    let lvl2 := if c = '}' then lvl1 - 1 else lvl1
    if lvl2 = 0 then some i else speaker_insert_pos_aux r (i+1) lvl2

def speaker_insert_pos (text : List Char) : Nat :=
  (speaker_insert_pos_aux text 0 0).getD 0

inductive ShowSpeakerMode where
  | squareBrackets
  | roundBrackets
  | colonMode
  | plainMode
  deriving Repr, DecidableEq

/-- The speaker-name decoration of the four `speaker_mode` settings. -/
def speakerWrap : ShowSpeakerMode → String → List Char
  | .squareBrackets, nm => '[' :: nm.data ++ [']']
  | .roundBrackets, nm => '(' :: nm.data ++ [')']
  | .colonMode, nm => nm.data ++ [':']
  | .plainMode, nm => nm.data

def lowerChar (c : Char) : Char :=
  if 'A' ≤ c && c ≤ 'Z' then Char.ofNat (c.toNat + 32) else c

/-- `av_strcasecmp(a, b) == 0` (ASCII case-insensitive equality). -/
def strCaseEq (a b : String) : Bool := a.data.map lowerChar == b.data.map lowerChar

def styleNonempty : Option String → Bool
  | some st => !st.data.isEmpty
  | none => false

/-- `process_dialog_show_speaker` of sf_textmod.c (lines 453-547): parse;
return the line unchanged when the speaker name or the text is empty, or
when the insertion point is at or past the last character; otherwise
insert the decorated speaker name (plus optional style codes) at the
computed point and re-serialize.  The `process_text` call whose result the
C code leaks (its output is overwritten before use) is not modelled;
allocation failure is not modelled. -/
def process_dialog_show_speaker (mode : ShowSpeakerMode) (line_break : Bool)
    (style : Option String) (ass_line : String) : Option String :=
  match avpriv_ass_split_dialog ass_line with
  | .error _ => none
  | .ok d =>
    if d.name.data.isEmpty || d.text.data.isEmpty then some ass_line
    else
      let len := d.text.data.length
      let pos := if styleNonempty style then 0 else speaker_insert_pos d.text.data
      if pos ≥ len - 1 then some ass_line
      else
        let stylePre : List Char :=
          match style with
          | some st =>
            if st.data.isEmpty then []
            else if st.data.head? = some '{' then st.data
            else '{' :: '\\' :: 'r' :: st.data ++ ['}']
          | none => []
        let styleReset : List Char :=
          match style with
          | some st =>
            if st.data.isEmpty then []
            else if !d.style.data.isEmpty && strCaseEq d.style "default" then
              '{' :: '\\' :: 'r' :: d.style.data ++ ['}']
            else ['{', '\\', 'r', '}']
          | none => []
        let sep : List Char := if line_break then ['\\', 'N'] else [' ']
        let newtext : List Char :=
          d.text.data.take pos ++ stylePre ++ speakerWrap mode d.name ++ styleReset
            ++ sep ++ d.text.data.drop pos
        some (avpriv_ass_get_dialog_ex d.readorder d.layer (some d.style) (some d.name)
          d.margin_l d.margin_r d.margin_v (some d.effect) ⟨newtext⟩)

theorem insert_aux_cons (c : Char) (r : List Char) (i : Nat) (lvl : Int) :
    speaker_insert_pos_aux (c :: r) i lvl =
      (let lvl1 := if c = '{' then lvl + 1 else lvl
       let lvl2 := if c = '}' then lvl1 - 1 else lvl1
       if lvl2 = 0 then some i else speaker_insert_pos_aux r (i+1) lvl2) := rfl

theorem insert_aux_inner : ∀ (inner rest : List Char) (i : Nat),
    '{' ∉ inner → '}' ∉ inner →
    speaker_insert_pos_aux (inner ++ '}' :: rest) i 1 = some (i + inner.length) := by
  intro inner
  induction inner with
  | nil =>
    intro rest i _ _
    rw [List.nil_append, insert_aux_cons]
    simp
  | cons x xs ih =>
    intro rest i hb1 hb2
    have hx1 : x ≠ '{' := fun h => hb1 (h ▸ List.mem_cons_self x xs)
    have hx2 : x ≠ '}' := fun h => hb2 (h ▸ List.mem_cons_self x xs)
    have hxs1 : '{' ∉ xs := fun h => hb1 (List.mem_cons_of_mem x h)
    have hxs2 : '}' ∉ xs := fun h => hb2 (List.mem_cons_of_mem x h)
    rw [List.cons_append, insert_aux_cons]
    simp only [if_neg hx1, if_neg hx2]
    rw [if_neg (by omega)]
    rw [ih rest (i+1) hxs1 hxs2]
    simp only [Option.some.injEq, List.length_cons]
    omega

/-- C10 counterexample: the claim as stated is false on the code in two
places.  (i) A dialog text that starts with a stray `}` and later contains
a `{` does not get insertion point 0: on `}a{b` the running counter
returns to zero at index 2 (the `{`), not 0.  (ii) The unchanged-return
threshold is the last character, not the second-to-last: on the line with
2-character text `ab`, the insertion point 0 equals len-2, yet the filter
does not return the line unchanged — it inserts the speaker. -/
theorem claim_C10_counterexample :
    (List.head? ['}', 'a', '{', 'b'] ≠ some '{' ∧
      speaker_insert_pos ['}', 'a', '{', 'b'] = 2) ∧
    (speaker_insert_pos ['a', 'b'] = (['a', 'b'].length - 2 : Nat) ∧
      process_dialog_show_speaker .squareBrackets false none "1,0,Default,Bob,0,0,0,,ab" ≠
        some "1,0,Default,Bob,0,0,0,,ab") := by
  refine ⟨⟨by decide, by decide⟩, by decide, by decide⟩

/-- C10 amended: the insertion point is the first index at which the
running brace counter (incremented at `{`, decremented at `}`) is zero,
taken as 0 when no such index exists.  Hence: for a text whose first
character is neither `{` nor `}` the insertion point is 0; for a text
starting with a brace-free override block `{...}` it is the index of that
block's closing `}` (so the copied prefix excludes the closing brace and
the speaker text lands inside the block); and (with no style option set
and nonempty name and text) the original line is returned unchanged iff
the insertion point is at or past the LAST character (pos ≥ len-1),
otherwise the emitted line re-serializes the fields around the text with
the decorated speaker name inserted at the insertion point. -/
theorem claim_C10_speaker_insert_amended :
    (∀ (c : Char) (r : List Char), c ≠ '{' → c ≠ '}' →
      speaker_insert_pos (c :: r) = 0) ∧
    (∀ (inner rest : List Char), '{' ∉ inner → '}' ∉ inner →
      speaker_insert_pos ('{' :: inner ++ '}' :: rest) = inner.length + 1) ∧
    (∀ (mode : ShowSpeakerMode) (lb : Bool) (line : String) (d : ASSDialog),
      avpriv_ass_split_dialog line = .ok d →
      d.name.data.isEmpty = false → d.text.data.isEmpty = false →
      (speaker_insert_pos d.text.data ≥ d.text.data.length - 1 →
        process_dialog_show_speaker mode lb none line = some line) ∧
      (speaker_insert_pos d.text.data < d.text.data.length - 1 →
        process_dialog_show_speaker mode lb none line =
          some (avpriv_ass_get_dialog_ex d.readorder d.layer (some d.style) (some d.name)
            d.margin_l d.margin_r d.margin_v (some d.effect)
            ⟨d.text.data.take (speaker_insert_pos d.text.data)
              ++ speakerWrap mode d.name
              ++ (if lb then ['\\', 'N'] else [' '])
              ++ d.text.data.drop (speaker_insert_pos d.text.data)⟩))) := by
  refine ⟨?_, ?_, ?_⟩
  · intro c r hc1 hc2
    show (speaker_insert_pos_aux (c :: r) 0 0).getD 0 = 0
    rw [insert_aux_cons]
    simp [hc1, hc2]
  · intro inner rest hb1 hb2
    show (speaker_insert_pos_aux ('{' :: (inner ++ '}' :: rest)) 0 0).getD 0 = inner.length + 1
    have h1 : speaker_insert_pos_aux ('{' :: (inner ++ '}' :: rest)) 0 0 =
        speaker_insert_pos_aux (inner ++ '}' :: rest) 1 1 := rfl
    rw [h1, insert_aux_inner inner rest 1 hb1 hb2]
    simp [Nat.add_comm]
  · intro mode lb line d hp hname htext
    have hcond : ¬((d.name.data.isEmpty || d.text.data.isEmpty) = true) := by
      simp [hname, htext]
    have hpd : process_dialog_show_speaker mode lb none line =
        (if (d.name.data.isEmpty || d.text.data.isEmpty) = true then some line
        else if speaker_insert_pos d.text.data ≥ d.text.data.length - 1 then some line
        else some (avpriv_ass_get_dialog_ex d.readorder d.layer (some d.style) (some d.name)
          d.margin_l d.margin_r d.margin_v (some d.effect)
          ⟨d.text.data.take (speaker_insert_pos d.text.data) ++ [] ++ speakerWrap mode d.name
            ++ [] ++ (if lb = true then ['\\', 'N'] else [' '])
            ++ d.text.data.drop (speaker_insert_pos d.text.data)⟩)) := by
      rw [process_dialog_show_speaker, hp]
      rfl
    constructor
    · intro hge
      rw [hpd, if_neg hcond, if_pos hge]
    · intro hlt
      rw [hpd, if_neg hcond, if_neg (by omega)]
      have hnt : d.text.data.take (speaker_insert_pos d.text.data) ++ []
          ++ speakerWrap mode d.name ++ []
          ++ (if lb = true then ['\\', 'N'] else [' '])
          ++ d.text.data.drop (speaker_insert_pos d.text.data) =
          d.text.data.take (speaker_insert_pos d.text.data)
          ++ speakerWrap mode d.name
          ++ (if lb = true then ['\\', 'N'] else [' '])
          ++ d.text.data.drop (speaker_insert_pos d.text.data) := by
        simp
      rw [hnt]

/-- Witness for C10 (amended) at concrete inputs: a plain text gets the
speaker prepended at index 0; a leading override block puts the insertion
point on its closing brace; and a concrete line is rewritten with the
speaker inserted inside the block. -/
theorem claim_C10_speaker_insert_amended_witness :
    speaker_insert_pos ['x', 'y', 'z'] = 0 ∧
    speaker_insert_pos ('{' :: ['\\', 'b', '1'] ++ '}' :: ['Q']) = 4 ∧
    process_dialog_show_speaker .squareBrackets false none
      "1,0,Default,Bob,0,0,0,,\x7b\\b1\x7dHello" =
      some "1,0,Default,Bob,0,0,0,,\x7b\\b1[Bob] \x7dHello" :=
  ⟨claim_C10_speaker_insert_amended.1 'x' ['y', 'z'] (by decide) (by decide),
   claim_C10_speaker_insert_amended.2.1 ['\\', 'b', '1'] ['Q'] (by decide) (by decide),
   ((claim_C10_speaker_insert_amended.2.2 .squareBrackets false
      "1,0,Default,Bob,0,0,0,,\x7b\\b1\x7dHello"
      (ASSDialog.mk 1 0 "Default" "Bob" 0 0 0 "" "\x7b\\b1\x7dHello")
      (by rfl) (by decide) (by decide)).2 (by decide)).trans (by decide)⟩

end FF
